import Mathlib

/-!
Verification development for the Nx I/O tracer (`tracer-nx.mjs` and its
variants).  The definitions below are a shallow embedding of the
JavaScript source: strings are modelled as `List Char`, JS `Set`s as
insertion-ordered duplicate-free lists, JS regular expressions as
hand-compiled matchers with the exact semantics of the regex literals
appearing in the source, and filesystem / subprocess effects as explicit
oracle parameters.
-/

set_option maxHeartbeats 1000000

/-- Strings are modelled as lists of characters (JS strings are sequences
of UTF-16 units; all inputs considered here are plain characters). -/
abbrev Str := List Char

/-- Test that `pre` is a leading segment of `s` (JS `s.startsWith(pre)`). -/
def strStartsWith (s pre : Str) : Bool :=
  match pre, s with
  | [], _ => true
  | _ :: _, [] => false
  | p :: ps, c :: cs => p == c && strStartsWith cs ps

/-- Test that `suf` is a trailing segment of `s` (JS `s.endsWith(suf)`). -/
def strEndsWith (s suf : Str) : Bool :=
  (strStartsWith s.reverse suf.reverse)

/-- Test that `needle` occurs as a contiguous substring of `s`
(JS `s.includes(needle)`). -/
def containsSub (needle : Str) : Str → Bool
  | [] => strStartsWith [] needle
  | c :: rest => strStartsWith (c :: rest) needle || containsSub needle rest

/-- Worker for `replaceAll`: a positive `skip` count means the position
is still inside an already-replaced match, whose remaining characters
are dropped without rescanning. -/
def replaceAllAux (pat repl : Str) (skip : Nat) : Str → Str
  | [] => []
  | c :: rest =>
    match skip with
    | n + 1 => replaceAllAux pat repl n rest
    | 0 =>
      if pat ≠ [] ∧ strStartsWith (c :: rest) pat then
        repl ++ replaceAllAux pat repl (pat.length - 1) rest
      else
        c :: replaceAllAux pat repl 0 rest

/-- Replace every occurrence of `pat` in the subject, left to right and
without rescanning the replacement text: the semantics of JS
`String.prototype.replace` with a global regex whose pattern is the
literal string `pat` (the tracer only substitutes the nonempty tokens
`{projectRoot}` and `{workspaceRoot}`). -/
def replaceAll (pat repl s : Str) : Str :=
  replaceAllAux pat repl 0 s

/-- Split a string at newline characters (JS `s.split('\n')`). -/
def splitLines : Str → List Str
  | [] => [[]]
  | '\n' :: rest => [] :: splitLines rest
  | c :: rest =>
    match splitLines rest with
    | [] => [[c]]
    | l :: ls => (c :: l) :: ls

/-- Lexicographic comparison of strings by character code: the default
comparison used by JS `Array.prototype.sort` on strings. -/
def strLe : Str → Str → Bool
  | [], _ => true
  | _ :: _, [] => false
  | a :: as, b :: bs => if a = b then strLe as bs else decide (a < b)

/-- Insert into a sorted list, keeping it sorted under `strLe`. -/
def insertSorted (x : Str) : List Str → List Str
  | [] => [x]
  | y :: ys => if strLe x y then x :: y :: ys else y :: insertSorted x ys

/-- Sort a list of strings (models `Array.from(set).sort()`). -/
def sortStrs (l : List Str) : List Str := l.foldr insertSorted []

/-- Add an element to an insertion-ordered duplicate-free list: the
model of JS `Set.prototype.add`. -/
def insertUniq (x : Str) (l : List Str) : List Str :=
  if x ∈ l then l else l ++ [x]

/-- The characters of the JS regex class `\s` (ECMAScript WhiteSpace and
LineTerminator): tab, line feed, vertical tab, form feed, carriage
return, space, no-break space, Ogham space mark, the en-quad to
hair-space range U+2000..U+200A, line separator, paragraph separator,
narrow no-break space, medium mathematical space, ideographic space and
the byte-order mark. -/
def jsWhitespace : List Char :=
  ['\t', '\n', Char.ofNat 0xb, Char.ofNat 0xc, '\r', ' ', Char.ofNat 0xa0,
   Char.ofNat 0x1680, Char.ofNat 0x2000, Char.ofNat 0x2001, Char.ofNat 0x2002,
   Char.ofNat 0x2003, Char.ofNat 0x2004, Char.ofNat 0x2005, Char.ofNat 0x2006,
   Char.ofNat 0x2007, Char.ofNat 0x2008, Char.ofNat 0x2009, Char.ofNat 0x200a,
   Char.ofNat 0x2028, Char.ofNat 0x2029, Char.ofNat 0x202f, Char.ofNat 0x205f,
   Char.ofNat 0x3000, Char.ofNat 0xfeff]

/-- Membership test for the JS regex class `\s`; the same set backs
`String.prototype.trim`. -/
def isSpaceJS (c : Char) : Bool :=
  jsWhitespace.contains c

/-- Word characters for the JS regex word-boundary assertion `\b`. -/
def isWordChar (c : Char) : Bool :=
  ('a' ≤ c && c ≤ 'z') || ('A' ≤ c && c ≤ 'Z') || ('0' ≤ c && c ≤ '9') || c == '_'

/-- Characters matched by the JS regex dot: every character except the
line terminators. -/
def nonNl (c : Char) : Bool :=
  !(c == '\n' || c == '\r' || c == Char.ofNat 0x2028 || c == Char.ofNat 0x2029)

/-- Join of two path segments (Node `path.join`) restricted to the
normalized, relative-second-argument form in which the tracer uses it:
empty segments are dropped and no `.`/`..` normalization is needed for
the inputs that reach it. -/
def nodeJoin (a b : Str) : Str :=
  if a = [] then b else if b = [] then a else a ++ '/' :: b

/-- Relativization of `p` against `root` (Node `path.relative`),
restricted to arguments for which the tracer consults the result: every
call site has already checked `p.startsWith(root)`, and the result is
only inspected for emptiness and for a leading `".."`.  When `p` equals
the root the result is empty; when `p` extends the root across a
separator the result is the remainder; otherwise (root matched only as a
partial component) Node produces a `../`-prefixed path, modelled here by
prefixing `".."` to the mismatched tail. -/
def nodeRelative (root p : Str) : Str :=
  if p = root then []
  else if strStartsWith p (root ++ ['/']) then p.drop (root.length + 1)
  else '.' :: '.' :: '/' :: p.drop root.length

-- ==========================================================================
-- Glob compiler (`globToRegex`, part_002 lines 395-417)
-- ==========================================================================

/-- Elements of the regex produced by `globToRegex`.  Each constructor is
one of the fragments the JS function substitutes into the regex string:
`lit c` an escaped literal character, `single` the `.` produced from `?`,
`anypath` the fragment `(?:.*/)?[^/]+` produced from the sequence
`**/*`, `globstar` the fragment `.*` produced from `**`, and `star` the
fragment `[^/]*` produced from `*`. -/
inductive Tok where
  | lit (c : Char)
  | single
  | anypath
  | globstar
  | star
  deriving DecidableEq, Repr

/-- The marker string the source substitutes for `?` before escaping. -/
def markSingle : Str := "<<<SINGLECHAR>>>".toList

/-- The marker string the source substitutes for `**/*` before
escaping. -/
def markAnypath : Str := "<<<ANYPATH>>>".toList

/-- The marker string the source substitutes for `**` before escaping. -/
def markGlobstar : Str := "<<<GLOBSTAR>>>".toList

/-- The characters escaped by the pass
`regex.replace(/[.+^${}()|[\]\\]/g, '\\$&')`. -/
def regexMetaChar (c : Char) : Bool :=
  c == '.' || c == '+' || c == '^' || c == '$' || c == '{' || c == '}' ||
  c == '(' || c == ')' || c == '|' || c == '[' || c == ']' || c == '\\'

/-- The escaping pass itself: prefix every regex metacharacter with a
backslash. -/
def escapeRegex : Str → Str
  | [] => []
  | c :: rest =>
    if regexMetaChar c then '\\' :: c :: escapeRegex rest
    else c :: escapeRegex rest

/-- The regex source string built by `globToRegex` (part_002 lines
395-417), following the source's replacement order exactly: substitute
markers for `?`, `**/*` and `**`, escape the metacharacters, turn each
remaining `*` into `[^/]*`, and then restore every occurrence of the
three marker strings — including occurrences that were present literally
in the input pattern — into their regex fragments. -/
def globRegexSource (pattern : Str) : Str :=
  let s1 := replaceAll ['?'] markSingle pattern
  let s2 := replaceAll "**/*".toList markAnypath s1
  let s3 := replaceAll "**".toList markGlobstar s2
  let s4 := escapeRegex s3
  let s5 := replaceAll ['*'] "[^/]*".toList s4
  let s6 := replaceAll markAnypath "(?:.*/)?[^/]+".toList s5
  let s7 := replaceAll markGlobstar ".*".toList s6
  replaceAll markSingle ['.'] s7

/-- Read the regex source produced by `globRegexSource` back into token
form.  The string is an unambiguous concatenation of backslash-escaped
literals, safe literal characters, and the three restored fragments plus
`[^/]*`: every unescaped `(`, `[`, `.` or `\` can only have been
produced by a restore (original metacharacters are all escaped, and the
replacement passes eliminate every bare `*` and `?`), so dispatching on
the head character parses the string exactly as the regex engine
does. -/
def scanRegexGo : Nat → Str → List Tok
  | 0, _ => []
  | _ + 1, [] => []
  | fuel + 1, c :: rest =>
    if c = '\\' then
      match rest with
      | c2 :: rest2 => Tok.lit c2 :: scanRegexGo fuel rest2
      | [] => [Tok.lit '\\']
    else if c = '(' then
      if strStartsWith rest "?:.*/)?[^/]+".toList then
        Tok.anypath :: scanRegexGo fuel (rest.drop 12)
      else Tok.lit '(' :: scanRegexGo fuel rest
    else if c = '[' then
      if strStartsWith rest "^/]*".toList then
        Tok.star :: scanRegexGo fuel (rest.drop 4)
      else Tok.lit '[' :: scanRegexGo fuel rest
    else if c = '.' then
      if strStartsWith rest ['*'] then
        Tok.globstar :: scanRegexGo fuel (rest.drop 1)
      else Tok.single :: scanRegexGo fuel rest
    else Tok.lit c :: scanRegexGo fuel rest

/-- The reader proper: every step of `scanRegexGo` consumes at least one
character, so the input length is an adequate recursion bound. -/
def scanRegex (s : Str) : List Tok :=
  scanRegexGo s.length s

/-- Compile a glob pattern to the token form of the regex built by
`globToRegex` (part_002 lines 395-417): build the regex source string
through the marker pipeline and read it back into tokens. -/
def globToRegex (pattern : Str) : List Tok :=
  scanRegex (globRegexSource pattern)

/-- Whether a token list matches the empty string: `lit`, `single`,
`anypath` all require at least one character, while `[^/]*` and `.*`
accept the empty string. -/
def nullable : List Tok → Bool
  | [] => true
  | Tok.star :: ts => nullable ts
  | Tok.globstar :: ts => nullable ts
  | _ :: _ => false

/-- Extended state alphabet for running the compiled regex.  In addition
to the surface tokens, a run can be inside the two sub-fragments of
`(?:.*/)?[^/]+`: `seg` is a pending `[^/]+` and `pre` is a pending
`.*/` followed by `[^/]+`. -/
inductive RTok where
  | lit (c : Char)
  | single
  | anypath
  | globstar
  | star
  | seg
  | pre
  deriving DecidableEq, Repr

/-- Injection of surface tokens into run-time tokens. -/
def Tok.toR : Tok → RTok
  | Tok.lit c => RTok.lit c
  | Tok.single => RTok.single
  | Tok.anypath => RTok.anypath
  | Tok.globstar => RTok.globstar
  | Tok.star => RTok.star

/-- Whether a run-time token list matches the empty string. -/
def rnullable : List RTok → Bool
  | [] => true
  | RTok.star :: ts => rnullable ts
  | RTok.globstar :: ts => rnullable ts
  | _ :: _ => false

/-- All token lists that can remain after the given token list consumes
one character `c`: the standard derivative of the regex fragments
substituted by `globToRegex`.  `[^/]*` and `.*` may either consume the
character and stay or be skipped; `(?:.*/)?[^/]+` may start its final
segment (leaving `[^/]*`), consume the character inside the leading
`.*` (leaving `.*/[^/]+`), or use a `/` as the closing slash of an
empty `.*` (leaving `[^/]+`). -/
def rderiv : List RTok → Char → List (List RTok)
  | [], _ => []
  | RTok.lit d :: ts, c => if c = d then [ts] else []
  | RTok.single :: ts, c => if nonNl c then [ts] else []
  | RTok.star :: ts, c =>
      (if c ≠ '/' then [RTok.star :: ts] else []) ++ rderiv ts c
  | RTok.globstar :: ts, c =>
      (if nonNl c then [RTok.globstar :: ts] else []) ++ rderiv ts c
  | RTok.seg :: ts, c => if c ≠ '/' then [RTok.star :: ts] else []
  | RTok.pre :: ts, c =>
      (if nonNl c then [RTok.pre :: ts] else []) ++
      (if c = '/' then [RTok.seg :: ts] else [])
  | RTok.anypath :: ts, c =>
      (if c ≠ '/' then [RTok.star :: ts] else []) ++
      (if nonNl c then [RTok.pre :: ts] else []) ++
      (if c = '/' then [RTok.seg :: ts] else [])

/-- One step of the regex run: feed `c` to every alternative state. -/
def rstep (states : List (List RTok)) (c : Char) : List (List RTok) :=
  (states.flatMap (fun ts => rderiv ts c)).dedup

/-- Run the compiled regex over the whole subject. -/
def regexRun (states : List (List RTok)) : Str → Bool
  | [] => states.any rnullable
  | c :: rest => regexRun (rstep states c) rest

/-- Anchored regex test (the source wraps the compiled body in `^...$`
and calls `RegExp.prototype.test`). -/
def regexTest (ts : List Tok) (s : Str) : Bool :=
  regexRun [ts.map Tok.toR] s

section GlobScratch

example : regexTest (globToRegex "/w/src/**".toList) "/w/src/generated/x.ts".toList = true := by decide

example : regexTest (globToRegex "/r/**/*.ts".toList) "/r/a.ts".toList = true := by decide

example : regexTest (globToRegex "/r/**/*.ts".toList) "/r/src/a.ts".toList = true := by decide

example : regexTest (globToRegex "/r/**/*.ts".toList) "/q/a.ts".toList = false := by decide

example : regexTest (globToRegex "/r/**/*.ts".toList) "/r/a.tsx".toList = false := by decide

example : globToRegex "***/*".toList = [Tok.star, Tok.anypath] := by decide

example : regexTest [Tok.star, Tok.anypath] "ab".toList = true := by decide

end GlobScratch

-- ==========================================================================
-- Named-input resolution (`resolveNamedInput` / `expandInputs`,
-- part_002 lines 45-102)
-- ==========================================================================

/-- Raw entries of an Nx `inputs`/`outputs` array: either a string (a
glob, a named-input reference, or a `^`/`!`-prefixed form of one) or an
object (runtime/env/externalDependencies inputs, which carry no
file-matching semantics). -/
inductive NxInput where
  | str (s : Str)
  | obj
  deriving DecidableEq, Repr

/-- The `namedInputs` dictionary of `nx.json`, loaded once per run. -/
abbrev NamedTable := List (Str × List NxInput)

/-- Lookup of a named input (`namedInputs[name]`). -/
def assocLookup (t : NamedTable) (name : Str) : Option (List NxInput) :=
  match t with
  | [] => none
  | (k, v) :: rest => if k = name then some v else assocLookup rest name

/-- Tokens whose expansion consults the named-input table: the group
names themselves and their `^`-prefixed dependency forms.  Only these
tokens are ever added to the visited set by a recursive branch, which is
what makes resolution terminate. -/
def allGroupKeys (t : NamedTable) : List Str :=
  t.map (fun kv => kv.1) ++ t.map (fun kv => '^' :: kv.1)

/-- Number of expandable tokens not yet visited: the termination measure
of the resolver. -/
def countNotMem (keys visited : List Str) : Nat :=
  keys.countP (fun k => decide (k ∉ visited))

/-- Growing the visited set can only shrink the measure. -/
def countNotMem_append_le (keys d visited : List Str) :
    countNotMem keys (d ++ visited) ≤ countNotMem keys visited := by
  apply List.countP_mono_left
  intro k _ hk
  simp only [decide_eq_true_eq] at hk ⊢
  exact fun hmem => hk (List.mem_append.mpr (Or.inr hmem))

/-- Visiting a previously unvisited expandable token strictly shrinks
the measure. -/
def countNotMem_cons_lt (keys visited : List Str) (x : Str)
    (hx : x ∈ keys) (hv : x ∉ visited) :
    countNotMem keys (x :: visited) < countNotMem keys visited := by
  obtain ⟨l1, l2, rfl⟩ := List.append_of_mem hx
  have hmono1 := countNotMem_append_le l1 [x] visited
  have hmono2 := countNotMem_append_le l2 [x] visited
  simp only [countNotMem, List.countP_append, List.countP_cons, List.singleton_append] at *
  have hx1 : (decide (x ∉ x :: visited)) = false := by simp
  have hx2 : (decide (x ∉ visited)) = true := by simp [hv]
  rw [hx1, hx2]
  simp only [Bool.false_eq_true, if_false, if_true]
  omega

/-- Lexicographic decrease step used by the resolver's inner loop: the
visited set has grown by some delta, so the first measure component has
not increased, and the second strictly decreases. -/
def measureStepLe (K d visited : List Str) {m n : Nat} (h : m < n) :
    Prod.Lex (· < ·) (· < ·)
      (countNotMem K (d ++ visited), m) (countNotMem K visited, n) := by
  rcases lt_or_eq_of_le (countNotMem_append_le K d visited) with h1 | h1
  · exact Prod.Lex.left _ _ h1
  · rw [h1]
    exact Prod.Lex.right _ h

/-- Membership of a key that the table lookup resolves. -/
def assocLookup_mem (t : NamedTable) (name : Str) (v : List NxInput)
    (h : assocLookup t name = some v) : name ∈ t.map (fun kv => kv.1) := by
  induction t with
  | nil => cases h
  | cons kv rest ih =>
    simp only [assocLookup] at h
    by_cases hk : kv.1 = name
    · simp [hk]
    · rw [if_neg hk] at h
      simp [ih h]

mutual

/-- Model of `resolveNamedInput` (part_002 lines 45-79).  The JS version
threads one mutable `Set` of visited tokens through the whole recursion;
here the current visited set is passed in and the newly added tokens are
returned as the second component (the JS set after the call is the
returned delta prepended to the argument).  A token already visited is
not expanded again; a token found in the table (directly or after
stripping a `^` prefix) is marked visited and its patterns are resolved
recursively; any other string is a literal pattern; object inputs are
dropped. -/
def resolveGo (t : NamedTable) (input : NxInput) (visited : List Str) :
    List Str × List Str :=
  match input with
  | NxInput.obj => ([], [])
  | NxInput.str s =>
    if hv : s ∈ visited then ([], [])
    else
      match hl : assocLookup t s with
      | some patterns =>
        let r := resolveList t patterns (s :: visited)
        (r.1, r.2 ++ [s])
      | none =>
        if hc : strStartsWith s ['^'] then
          match hl2 : assocLookup t (s.drop 1) with
          | some patterns =>
            let r := resolveList t patterns (s :: visited)
            (r.1, r.2 ++ [s])
          | none => ([s], [])
        else ([s], [])
termination_by (countNotMem (allGroupKeys t) visited, 0)
decreasing_by
  · apply Prod.Lex.left
    apply countNotMem_cons_lt _ _ _ _ hv
    exact List.mem_append.mpr (Or.inl (assocLookup_mem t s patterns hl))
  · apply Prod.Lex.left
    apply countNotMem_cons_lt _ _ _ _ hv
    apply List.mem_append.mpr
    right
    cases s with
    | nil => simp [strStartsWith] at hc
    | cons c cs =>
      simp only [strStartsWith, Bool.and_eq_true, beq_iff_eq] at hc
      obtain ⟨hc1, -⟩ := hc
      subst hc1
      have hm := assocLookup_mem t _ patterns hl2
      simp only [List.drop_succ_cons, List.drop_zero] at hm
      obtain ⟨kv, hkv, hkv2⟩ := List.mem_map.mp hm
      exact List.mem_map.mpr ⟨kv, hkv, by rw [hkv2]⟩

/-- Model of the `patterns.flatMap(p => resolveNamedInput(p, visited))`
loop: resolve each pattern in order, threading the growing visited set,
and concatenate the results. -/
def resolveList (t : NamedTable) (inputs : List NxInput) (visited : List Str) :
    List Str × List Str :=
  match inputs with
  | [] => ([], [])
  | p :: rest =>
    let r1 := resolveGo t p visited
    let r2 := resolveList t rest (r1.2 ++ visited)
    (r1.1 ++ r2.1, r2.2 ++ r1.2)
termination_by (countNotMem (allGroupKeys t) visited, inputs.length + 1)
decreasing_by
  · apply Prod.Lex.right
    omega
  · exact measureStepLe _ _ _ (by simp only [List.length_cons]; omega)

end

/-- Top-level entry of the resolver: the JS default argument is a fresh
empty visited set. -/
def resolveNamedInput (t : NamedTable) (input : NxInput) : List Str :=
  (resolveGo t input []).1

/-- Model of `expandInputs` (part_002 lines 84-102): resolve every raw
input (each top-level call starting from a fresh visited set, as in the
source) and split the resulting flat pattern list into positive patterns
and `!`-stripped negation patterns, preserving order. -/
def expandInputs (t : NamedTable) (inputs : List NxInput) : List Str × List Str :=
  inputs.foldl
    (fun acc input =>
      (resolveNamedInput t input).foldl
        (fun acc2 pattern =>
          if strStartsWith pattern ['!'] then (acc2.1, acc2.2 ++ [pattern.drop 1])
          else (acc2.1 ++ [pattern], acc2.2))
        acc)
    ([], [])

-- ==========================================================================
-- Pattern matching (`expandNxPath` / `matchesSinglePattern` /
-- `matchesPatterns`, part_002 lines 386-468)
-- ==========================================================================

/-- Model of `expandNxPath` (part_002 lines 386-390): substitute the
project-root token and then the workspace-root token, each globally and
left to right. -/
def expandNxPath (pattern projectRoot workspaceRoot : Str) : Str :=
  replaceAll "{workspaceRoot}".toList workspaceRoot
    (replaceAll "{projectRoot}".toList projectRoot pattern)

/-- Model of `matchesSinglePattern` (part_002 lines 422-436): expand the
tokens, absolutize the pattern against the workspace root, then either
run the compiled glob (when the pattern contains a wildcard) or use
exact-match-or-directory-prefix semantics. -/
def matchesSinglePattern (workspaceRoot absolutePath pattern projectRoot : Str) : Bool :=
  let expandedPattern := expandNxPath pattern projectRoot workspaceRoot
  let absolutePattern :=
    if strStartsWith expandedPattern ['/'] then expandedPattern
    else nodeJoin workspaceRoot expandedPattern
  if containsSub ['*'] absolutePattern || containsSub ['?'] absolutePattern then
    regexTest (globToRegex absolutePattern) absolutePath
  else
    absolutePath == absolutePattern || strStartsWith absolutePath (absolutePattern ++ ['/'])

/-- Model of `matchesPatterns` (part_002 lines 441-468): absolutize the
file path, expand the declared inputs into positive and negation
patterns, and accept exactly when some positive pattern matches and no
negation pattern does. -/
def matchesPatterns (t : NamedTable) (workspaceRoot filePath : Str)
    (inputs : List NxInput) (projectRoot : Str) : Bool :=
  let absolutePath :=
    if strStartsWith filePath ['/'] then filePath else nodeJoin workspaceRoot filePath
  let e := expandInputs t inputs
  let matchesPos :=
    e.1.any (fun p => matchesSinglePattern workspaceRoot absolutePath p projectRoot)
  if !matchesPos then false
  else if e.2.any (fun n => matchesSinglePattern workspaceRoot absolutePath n projectRoot) then
    false
  else true

-- ==========================================================================
-- Configuration (`CONFIG`, part_002 lines 105-161) and path filters
-- ==========================================================================

/-- The `CONFIG.ignoredDirs` list. -/
def ignoredDirs : List Str :=
  ["node_modules".toList, ".nx".toList, ".git".toList, ".angular".toList,
   ".pnpm-store".toList, "proc".toList, "dev".toList, "sys".toList,
   "private".toList, "var".toList, "tmp".toList]

/-- The `CONFIG.nxInfraFiles` list of exact file names. -/
def nxInfraFiles : List Str :=
  ["nx.json".toList, "package.json".toList, "pnpm-lock.yaml".toList,
   "package-lock.json".toList, "yarn.lock".toList, "tsconfig.base.json".toList,
   "tsconfig.json".toList, ".gitignore".toList, ".nxignore".toList,
   ".claude".toList]

/-- Test for the end-anchored remainder of a regex of the form
`pre.*suf$`: the subject splits as a dot-matchable middle followed by
the suffix. -/
def tailDotStarSuf (suf s : Str) : Bool :=
  strEndsWith s suf && (s.take (s.length - suf.length)).all nonNl

/-- Test of a JS regex of the form `/pre.*suf$/`: some occurrence of
the literal `pre` is followed by an arbitrary dot-matchable middle and
the literal `suf` at the very end of the subject. -/
def regexPreMidSuf (pre suf : Str) : Str → Bool
  | [] => strStartsWith [] pre && tailDotStarSuf suf []
  | c :: rest =>
    (strStartsWith (c :: rest) pre && tailDotStarSuf suf ((c :: rest).drop pre.length)) ||
    regexPreMidSuf pre suf rest

/-- Test that the subject ends with one of the given suffixes: a JS
regex of the form `/lit(a|b|...)$/`. -/
def endsWithAny (sufs : List Str) (s : Str) : Bool :=
  sufs.any (fun suf => strEndsWith s suf)

/-- Suffixes matched by `/jest\.config\.(ts|js|cts|mts|cjs|mjs)$/`. -/
def jestConfigSufs : List Str :=
  ["jest.config.ts".toList, "jest.config.js".toList, "jest.config.cts".toList,
   "jest.config.mts".toList, "jest.config.cjs".toList, "jest.config.mjs".toList]

/-- Suffixes matched by `/eslint\.config\.(ts|js|cts|mts|cjs|mjs)$/`. -/
def eslintConfigSufs : List Str :=
  ["eslint.config.ts".toList, "eslint.config.js".toList, "eslint.config.cts".toList,
   "eslint.config.mts".toList, "eslint.config.cjs".toList, "eslint.config.mjs".toList]

/-- Suffixes matched by `/rspack\.config\.(ts|js|mjs|cjs)$/`. -/
def rspackConfigSufs : List Str :=
  ["rspack.config.ts".toList, "rspack.config.js".toList,
   "rspack.config.mjs".toList, "rspack.config.cjs".toList]

/-- Suffixes matched by `/webpack\.config\.(ts|js|mjs|cjs)$/`. -/
def webpackConfigSufs : List Str :=
  ["webpack.config.ts".toList, "webpack.config.js".toList,
   "webpack.config.mjs".toList, "webpack.config.cjs".toList]

/-- Model of `isNxInfrastructure` (part_002 lines 166-178): exact match
against `CONFIG.nxInfraFiles`, then each regex of
`CONFIG.nxInfraPatterns` in order. -/
def isNxInfrastructure (filePath : Str) : Bool :=
  decide (filePath ∈ nxInfraFiles) ||
  strEndsWith filePath "/project.json".toList ||
  strEndsWith filePath "/package.json".toList ||
  filePath == "project.json".toList ||
  strStartsWith filePath ".nx".toList ||
  regexPreMidSuf "tsconfig.".toList ".json".toList filePath ||
  strEndsWith filePath "tsconfig.json".toList ||
  endsWithAny jestConfigSufs filePath ||
  endsWithAny eslintConfigSufs filePath ||
  containsSub ".eslintrc".toList filePath ||
  strEndsWith filePath "pnpm-workspace.yaml".toList ||
  strEndsWith filePath "rust-toolchain.toml".toList ||
  strEndsWith filePath ".swcrc".toList ||
  strEndsWith filePath "executors.json".toList ||
  strEndsWith filePath "generators.json".toList ||
  strEndsWith filePath "migrations.json".toList ||
  strEndsWith filePath "schema.json".toList ||
  strEndsWith filePath ".gitignore".toList ||
  strEndsWith filePath ".gitattributes".toList ||
  containsSub ".env".toList filePath ||
  strEndsWith filePath ".local.env".toList ||
  endsWithAny rspackConfigSufs filePath ||
  endsWithAny webpackConfigSufs filePath ||
  containsSub ".husky/".toList filePath ||
  strEndsWith filePath ".npmignore".toList ||
  strEndsWith filePath "LICENSE".toList

/-- Model of `isRelevantPath` (part_002 lines 659-663): the path must
start with the workspace root and avoid every ignored directory
segment. -/
def isRelevantPath (workspaceRoot filePath : Str) : Bool :=
  strStartsWith filePath workspaceRoot &&
  !(ignoredDirs.any (fun dir => containsSub ('/' :: dir ++ ['/']) filePath))

-- ==========================================================================
-- Linux strace parser (`parseStraceOutput`, part_002 lines 593-622,
-- identical modulo configuration to tracer-strace.mjs lines 29-66)
-- ==========================================================================

/-- Literal head of the strace line regex
`openat\(AT_FDCWD,\s*"([^"]+)",\s*([^)]+)\)\s*=\s*(\d+)`. -/
def straceOpenatPre : Str := "openat(AT_FDCWD,".toList

/-- Continuation of the strace regex after its literal head: optional
whitespace, a nonempty quoted path, a comma, then `\s*([^)]+)\)` and
`\s*=\s*` with at least one digit.  The only place the regex engine
backtracks is `\s*([^)]+)`: the greedy `\s*` first swallows the
whitespace run, and if nothing is left for the mandatory `[^)]+` before
the closing parenthesis it gives one character back, so an
all-whitespace flag field still matches with its last character as the
captured flags.  Everywhere else each character class excludes the
character that terminates it, so greedy scanning is complete. -/
def parseOpenatAfter (s : Str) : Option (Str × Str) :=
  match s.dropWhile isSpaceJS with
  | '"' :: rest =>
    let path := rest.takeWhile (fun c => !(c == '"'))
    let rest2 := rest.dropWhile (fun c => !(c == '"'))
    if path.isEmpty then none
    else
      match rest2 with
      | '"' :: ',' :: rest3 =>
        let arg := rest3.takeWhile (fun c => !(c == ')'))
        let rest5 := rest3.dropWhile (fun c => !(c == ')'))
        if arg.isEmpty then none
        else
          let trimmed := arg.dropWhile isSpaceJS
          let flags := if trimmed.isEmpty then arg.drop (arg.length - 1) else trimmed
          match rest5 with
          | ')' :: rest6 =>
            match rest6.dropWhile isSpaceJS with
            | '=' :: rest8 =>
              match rest8.dropWhile isSpaceJS with
              | c :: _ => if c.isDigit then some (path, flags) else none
              | [] => none
            | _ => none
          | _ => none
      | _ => none
  | _ => none

/-- Unanchored search of the strace line regex: try the literal head at
every position, as a regex engine does, returning the first successful
match's path and flag captures. -/
def findOpenat : Str → Option (Str × Str)
  | [] => none
  | c :: rest =>
    if strStartsWith (c :: rest) straceOpenatPre then
      match parseOpenatAfter ((c :: rest).drop straceOpenatPre.length) with
      | some r => some r
      | none => findOpenat rest
    else findOpenat rest

/-- Processing of one strace line (the loop body of `parseStraceOutput`,
part_002 lines 599-615): a line with no regex match is skipped; a
matched path outside the workspace or inside an ignored directory is
skipped; otherwise the workspace-relative path is added to the writes
set when the flags mention `O_WRONLY`, `O_RDWR`, `O_CREAT` or `O_TRUNC`,
and to the reads set when they mention `O_RDONLY` or `O_RDWR` or omit
`O_WRONLY`. -/
def parseStraceLine (workspaceRoot : Str) (acc : List Str × List Str) (line : Str) :
    List Str × List Str :=
  match findOpenat line with
  | none => acc
  | some (filePath, flags) =>
    if !isRelevantPath workspaceRoot filePath then acc
    else
      let relativePath := nodeRelative workspaceRoot filePath
      if relativePath.isEmpty || strStartsWith relativePath "..".toList then acc
      else
        let writes :=
          if containsSub "O_WRONLY".toList flags || containsSub "O_RDWR".toList flags ||
              containsSub "O_CREAT".toList flags || containsSub "O_TRUNC".toList flags then
            insertUniq relativePath acc.2
          else acc.2
        let reads :=
          if containsSub "O_RDONLY".toList flags || containsSub "O_RDWR".toList flags ||
              !containsSub "O_WRONLY".toList flags then
            insertUniq relativePath acc.1
          else acc.1
        (reads, writes)

/-- Model of `parseStraceOutput` (part_002 lines 593-622): split at
newlines, process every line into the reads and writes sets, and return
both sets sorted. -/
def parseStraceOutput (workspaceRoot : Str) (straceOutput : Str) : List Str × List Str :=
  let sets := (splitLines straceOutput).foldl (parseStraceLine workspaceRoot) ([], [])
  (sortStrs sets.1, sortStrs sets.2)

-- ==========================================================================
-- macOS fs_usage parser (`parseFsUsageOutput`, part_002 lines 474-511,
-- identical modulo configuration to tracer-fsusage.mjs)
-- ==========================================================================

/-- Deterministic continuation of the fs_usage line regex
`\bopen\s+F=\d+\s+\(([^)]+)\)\s+(\/[^\s]+)` after the literal `open`:
whitespace, `F=` with digits, whitespace, a nonempty parenthesized flag
field, whitespace, and a `/`-initial nonempty path. -/
def parseFsAfterOpen (s : Str) : Option (Str × Str) :=
  match s with
  | c :: rest =>
    if isSpaceJS c then
      match rest.dropWhile isSpaceJS with
      | 'F' :: '=' :: s3 =>
        match s3 with
        | d :: rest3 =>
          if d.isDigit then
            match rest3.dropWhile Char.isDigit with
            | c2 :: rest4 =>
              if isSpaceJS c2 then
                match rest4.dropWhile isSpaceJS with
                | '(' :: s6 =>
                  let flags := s6.takeWhile (fun c => !(c == ')'))
                  let s7 := s6.dropWhile (fun c => !(c == ')'))
                  if flags.isEmpty then none
                  else
                    match s7 with
                    | ')' :: c3 :: rest8 =>
                      if isSpaceJS c3 then
                        match rest8.dropWhile isSpaceJS with
                        | '/' :: s10 =>
                          let tail := s10.takeWhile (fun c => !(isSpaceJS c))
                          if tail.isEmpty then none
                          else some (flags, '/' :: tail)
                        | _ => none
                      else none
                    | _ => none
                | _ => none
              else none
            | [] => none
          else none
        | [] => none
      | _ => none
    else none
  | [] => none

/-- Unanchored search of the fs_usage regex: the `\b` assertion admits a
match of the literal `open` only when the previous character is not a
word character (or the position is the start of the line). -/
def fsFindOpen (prev : Option Char) : Str → Option (Str × Str)
  | [] => none
  | c :: rest =>
    if (match prev with | none => true | some p => !isWordChar p) &&
        strStartsWith (c :: rest) "open".toList then
      match parseFsAfterOpen ((c :: rest).drop 4) with
      | some r => some r
      | none => fsFindOpen (some c) rest
    else fsFindOpen (some c) rest

/-- Processing of one fs_usage line (the loop body of
`parseFsUsageOutput`, part_002 lines 480-505): blank lines and lines
with no regex match are skipped; a matched path outside the workspace or
in an ignored directory is skipped; otherwise fixed positions 0, 1, 2
and 4 of the flag field are compared against `R`, `W`, `C` and `T`
(out-of-range positions read as unset, as JS indexing yields
`undefined`). -/
def parseFsUsageLine (workspaceRoot : Str) (acc : List Str × List Str) (line : Str) :
    List Str × List Str :=
  if (line.dropWhile isSpaceJS).isEmpty then acc
  else
    match fsFindOpen none line with
    | none => acc
    | some (flags, filePath) =>
      if !isRelevantPath workspaceRoot filePath then acc
      else
        let relativePath := nodeRelative workspaceRoot filePath
        if relativePath.isEmpty || strStartsWith relativePath "..".toList then acc
        else
          let isReadOnly := flags[0]? == some 'R'
          let isWrite := flags[1]? == some 'W'
          let isCreate := flags[2]? == some 'C'
          let isTrunc := flags[4]? == some 'T'
          let reads := if isReadOnly then insertUniq relativePath acc.1 else acc.1
          let writes :=
            if isWrite || isCreate || isTrunc then insertUniq relativePath acc.2 else acc.2
          (reads, writes)

/-- Model of `parseFsUsageOutput` (part_002 lines 474-511): split at
newlines, process every line, and return the sorted reads and writes
sets. -/
def parseFsUsageOutput (workspaceRoot : Str) (fsUsageOutput : Str) : List Str × List Str :=
  let sets := (splitLines fsUsageOutput).foldl (parseFsUsageLine workspaceRoot) ([], [])
  (sortStrs sets.1, sortStrs sets.2)

section ParserScratch

example :
    parseStraceOutput "/ws".toList
      "openat(AT_FDCWD, \"/ws/a.txt\", O_RDONLY|O_CLOEXEC) = 3".toList =
    (["a.txt".toList], []) := by decide

example :
    parseStraceOutput "/ws".toList
      "12 openat(AT_FDCWD, \"/ws/b.txt\", O_RDWR) = 4\ngarbage\nopenat(AT_FDCWD, \"/ws/c.txt\", O_WRONLY|O_CREAT, 0666) = -1".toList =
    (["b.txt".toList], ["b.txt".toList]) := by decide

example :
    parseFsUsageOutput "/ws".toList
      "10:51:10 open F=12 (R___________) /ws/d.txt 0.0001 node.7".toList =
    (["d.txt".toList], []) := by decide

example :
    parseFsUsageOutput "/ws".toList "0:00 open F=3 (R) /ws/f".toList =
    (["f".toList], []) := by decide

example :
    parseStraceOutput "/ws".toList
      "openat(AT_FDCWD, \"/ws/a\", ) = 3".toList = (["a".toList], []) := by decide

end ParserScratch

-- ==========================================================================
-- Task configuration collection (`getNxProjectConfig` / `getTaskConfig`,
-- part_002 lines 216-246 and 289-336)
-- ==========================================================================

/-- Entries of a target's `dependsOn` array: a string (possibly
`^`-prefixed or in `project:target` form) or an object with a `target`
and an optional `projects` field.  A missing `target` field is modelled
by the empty string, matching the JS truthiness test. -/
inductive DepRef where
  | str (s : Str)
  | obj (target : Str) (projects : Option Str)
  deriving DecidableEq, Repr

/-- Raw target configuration as returned by `nx show project --json`:
optional `inputs`, `outputs`, `dependsOn` and `cache` fields. -/
structure RawTarget where
  inputs : Option (List NxInput)
  outputs : Option (List NxInput)
  dependsOn : Option (List DepRef)
  cache : Option Bool
  deriving DecidableEq, Repr

/-- Raw project configuration: the project root and the targets table. -/
structure RawProject where
  root : Str
  targets : List (Str × RawTarget)
  deriving DecidableEq, Repr

/-- Oracle for the external `npx nx show project <p> --json` query: a
project that is missing, or whose spec query fails or returns malformed
JSON, is modelled by absence from the table. -/
abbrev NxOracle := List (Str × RawProject)

/-- Association-list lookup used for the oracle and the targets table. -/
def lookupStr {α : Type} : List (Str × α) → Str → Option α
  | [], _ => none
  | (k, v) :: rest, name => if k = name then some v else lookupStr rest name

/-- Processed per-task configuration (the record built by
`getNxProjectConfig`, part_002 lines 235-242). -/
structure TaskCfg where
  project : Str
  root : Str
  target : RawTarget
  inputs : List NxInput
  outputs : List NxInput
  cache : Bool
  deriving DecidableEq, Repr

/-- Model of `getNxProjectConfig` (part_002 lines 216-246): query the
project, look up the target (a missing target throws, which the caller
catches, so both failures collapse to `none`), default the input and
output lists, and compute cacheability exactly as the source does. -/
def getNxProjectConfig (oracle : NxOracle) (project target : Str) : Option TaskCfg :=
  match lookupStr oracle project with
  | none => none
  | some config =>
    match lookupStr config.targets target with
    | none => none
    | some targetConfig =>
      let isCacheable :=
        targetConfig.cache == some true ||
        (targetConfig.cache != some false &&
          (targetConfig.inputs.isSome || targetConfig.outputs.isSome))
      some { project := project, root := config.root, target := targetConfig,
             inputs := targetConfig.inputs.getD [],
             outputs := targetConfig.outputs.getD [],
             cache := isCacheable }

/-- The dependency target extracted from one `dependsOn` entry by the
loop body of `collectConfigs` (part_002 lines 304-323): `^`-prefixed
cross-project dependencies are skipped; `project:target` strings are
kept only for the same project or `self`; object entries are kept only
when their `projects` field is absent, falsy, or `self`.  The result
`some []` models the JS variable holding an empty (falsy) string, which
the final `if (depTarget)` test also skips. -/
def depTargetOf (proj : Str) (dep : DepRef) : Option Str :=
  match dep with
  | DepRef.str s =>
    if strStartsWith s ['^'] then none
    else if containsSub [':'] s then
      let p := s.takeWhile (fun c => !(c == ':'))
      let t := ((s.dropWhile (fun c => !(c == ':'))).drop 1).takeWhile (fun c => !(c == ':'))
      if p ≠ proj ∧ p ≠ "self".toList then none else some t
    else some s
  | DepRef.obj target projects =>
    if target.isEmpty then none
    else
      match projects with
      | some p => if !p.isEmpty && p ≠ "self".toList then none else some target
      | none => some target

/-- All `project:target` keys the oracle can resolve: the only tokens
whose visit triggers recursion in `collectConfigs`. -/
def allTaskKeys (oracle : NxOracle) : List Str :=
  oracle.flatMap (fun pp => pp.2.targets.map (fun tt => pp.1 ++ ':' :: tt.1))

/-- Successful config lookups have keys in `allTaskKeys`. -/
def getNxProjectConfig_key_mem (oracle : NxOracle) (proj tgt : Str) (c : TaskCfg)
    (h : getNxProjectConfig oracle proj tgt = some c) :
    (proj ++ ':' :: tgt) ∈ allTaskKeys oracle := by
  have hlook : ∀ {α : Type} (l : List (Str × α)) (name : Str) (v : α),
      lookupStr l name = some v → (name, v) ∈ l := by
    intro α l
    induction l with
    | nil => intro name v h; cases h
    | cons kv rest ih =>
      intro name v h
      simp only [lookupStr] at h
      by_cases hk : kv.1 = name
      · rw [if_pos hk] at h
        injection h with h2
        apply List.mem_cons.mpr
        left
        rw [← hk, ← h2]
      · rw [if_neg hk] at h
        exact List.mem_cons.mpr (Or.inr (ih name v h))
  unfold getNxProjectConfig at h
  split at h
  · cases h
  · rename_i config hp
    split at h
    · cases h
    · rename_i targetConfig ht
      apply List.mem_flatMap.mpr
      refine ⟨(proj, config), hlook oracle proj config hp, ?_⟩
      exact List.mem_map.mpr ⟨(tgt, targetConfig), hlook config.targets tgt targetConfig ht, rfl⟩

mutual

/-- Model of the recursive `collectConfigs` closure inside
`getTaskConfig` (part_002 lines 293-332).  As with the resolver, the JS
mutable visited set is modelled by passing the current set in and
returning the delta of newly added keys; the collected configs are the
first component.  A key already visited returns nothing; a failed config
query marks the key visited and is skipped silently (the catch block at
lines 329-331 contains no logging); a successful query contributes its
config followed by the configs of its same-project dependencies. -/
def collectConfigs (oracle : NxOracle) (proj tgt : Str) (visited : List Str) :
    List TaskCfg × List Str :=
  let key := proj ++ ':' :: tgt
  if hv : key ∈ visited then ([], [])
  else
    match hc : getNxProjectConfig oracle proj tgt with
    | none => ([], [key])
    | some config =>
      let r := collectDeps oracle proj (config.target.dependsOn.getD []) (key :: visited)
      (config :: r.1, r.2 ++ [key])
termination_by (countNotMem (allTaskKeys oracle) visited, 0)
decreasing_by
  · apply Prod.Lex.left
    apply countNotMem_cons_lt _ _ _ _ hv
    exact getNxProjectConfig_key_mem oracle proj tgt config hc

/-- Model of the `for (const dep of dependsOn)` loop of
`collectConfigs`: extract each dependency target, recurse on the
non-empty ones, and thread the visited set. -/
def collectDeps (oracle : NxOracle) (proj : Str) (deps : List DepRef) (visited : List Str) :
    List TaskCfg × List Str :=
  match deps with
  | [] => ([], [])
  | dep :: rest =>
    let r1 :=
      match depTargetOf proj dep with
      | some depTarget =>
        if depTarget.isEmpty then ([], [])
        else collectConfigs oracle proj depTarget visited
      | none => ([], [])
    let r2 := collectDeps oracle proj rest (r1.2 ++ visited)
    (r1.1 ++ r2.1, r2.2 ++ r1.2)
termination_by (countNotMem (allTaskKeys oracle) visited, deps.length + 1)
decreasing_by
  · apply Prod.Lex.right
    omega
  · exact measureStepLe _ _ _ (by simp only [List.length_cons]; omega)

end

/-- Model of `getTaskConfig` (part_002 lines 289-336): collect the
config of the requested task and of its same-project `dependsOn`
closure, starting from an empty visited set. -/
def getTaskConfig (oracle : NxOracle) (project target : Str) : List TaskCfg :=
  (collectConfigs oracle project target []).1

/-- Console output produced inside `getTaskConfig`'s dependency
collection: the source contains no logging statement there — in
particular the catch block for a failed dependency spec query (part_002
lines 329-331) is annotated "Target may not exist, skip silently" and
emits nothing. -/
def collectConfigsLog (_oracle : NxOracle) (_project _target : Str) : List Str := []

-- ==========================================================================
-- Classification engine and structured report (`main`,
-- part_002 lines 779-952)
-- ==========================================================================

/-- The structured JSON report printed at the end of `main` (part_002
lines 944-952).  Note that `crossProjectReads` is a list of bare paths:
the `fromProject` attribution appears only in the human-readable console
rendering (lines 925-928), not in this object. -/
structure Report where
  tasks : List Str
  undeclaredReads : List Str
  undeclaredWrites : List Str
  crossProjectReads : List Str
  exitCode : Int
  deriving DecidableEq, Repr

/-- Inputs of the classification stage of `main`: the workspace root,
the named-input table, the collected task configs, the
HashPlanInspector-resolved input set (`none` when the inspector query
failed and the tool falls back to pattern matching), the project roots
from the project graph, and the directory oracle consulted by
`isDirectory` (an external filesystem effect). -/
structure ClassifyEnv where
  workspaceRoot : Str
  namedTable : NamedTable
  taskConfigs : List TaskCfg
  resolvedInputs : Option (List Str)
  allProjectRoots : List Str
  isDir : Str → Bool

/-- Model of `findMatchingInputTask` (part_002 lines 686-693): the first
task whose declared inputs match wins ownership. -/
def findMatchingInputTask (env : ClassifyEnv) (filePath : Str) : Option Str :=
  (env.taskConfigs.find? (fun config =>
    matchesPatterns env.namedTable env.workspaceRoot filePath config.inputs config.root)).map
    (fun config => config.project)

/-- Model of `findMatchingOutputTask` (part_002 lines 698-705). -/
def findMatchingOutputTask (env : ClassifyEnv) (filePath : Str) : Option Str :=
  (env.taskConfigs.find? (fun config =>
    matchesPatterns env.namedTable env.workspaceRoot filePath config.outputs config.root)).map
    (fun config => config.project)

/-- The project root used for filtering: `taskConfigs[0]?.root || ''`
(part_002 line 784). -/
def projectRootOf (env : ClassifyEnv) : Str :=
  match env.taskConfigs with
  | [] => []
  | c :: _ => c.root

/-- Model of the `isInOtherProject` helper (part_002 lines 808-815):
the first project-graph root other than the current project's root that
contains the file. -/
def isInOtherProject (env : ClassifyEnv) (filePath : Str) : Option Str :=
  env.allProjectRoots.find? (fun root =>
    decide (root ≠ projectRootOf env) &&
    (strStartsWith filePath (root ++ ['/']) || filePath == root))

/-- Model of the `isRelevantToProject` helper (part_002 lines 819-830):
files under the project root, the root itself, and root-level files
without a separator are relevant; everything else is attributed to Nx
scanning. -/
def isRelevantToProject (env : ClassifyEnv) (filePath : Str) : Bool :=
  strStartsWith filePath (projectRootOf env ++ ['/']) ||
  filePath == projectRootOf env ||
  !containsSub ['/'] filePath

/-- Model of the `isInResolvedInputs` helper (part_002 lines 833-836). -/
def isInResolvedInputs (env : ClassifyEnv) (filePath : Str) : Bool :=
  match env.resolvedInputs with
  | none => false
  | some files => decide (filePath ∈ files)

/-- The classification stage of `main` (part_002 lines 779-952): filter
out Nx infrastructure files, compute the undeclared reads and writes and
the cross-project reads, and assemble the structured JSON report. -/
def runReport (env : ClassifyEnv) (reads writes : List Str) (target : Str)
    (exitCode : Int) : Report :=
  let taskReads := reads.filter (fun f => !isNxInfrastructure f)
  let taskWrites := writes.filter (fun f => !isNxInfrastructure f)
  let undeclaredReads := taskReads.filter (fun f =>
    !(env.isDir f) && isRelevantToProject env f && !isInResolvedInputs env f &&
    (findMatchingInputTask env f).isNone)
  let undeclaredWrites := taskWrites.filter (fun f =>
    !(env.isDir f) && isRelevantToProject env f && (findMatchingOutputTask env f).isNone)
  let crossProjectReads := taskReads.filter (fun f =>
    !(env.isDir f) && (isInOtherProject env f).isSome && !isInResolvedInputs env f)
  { tasks := env.taskConfigs.map (fun c => c.project ++ ':' :: target),
    undeclaredReads := undeclaredReads,
    undeclaredWrites := undeclaredWrites,
    crossProjectReads := crossProjectReads,
    exitCode := exitCode }

-- ==========================================================================
-- Process exit behavior (`main` wrapper, part_002 lines 955-962)
-- ==========================================================================

/-- The possible outcomes of one invocation, as far as the process exit
code is concerned: a usage error (part_002 lines 710-714), an
unsupported platform (lines 729-732), a tracer-level launch failure
(the `error` event of the strace subprocess rejects the promise at
lines 639-642, and `sudo`-missing on macOS exits directly at lines
514-518), or a completed trace carrying the traced task's exit code. -/
inductive MainOutcome where
  | usageError
  | unsupportedPlatform
  | tracerLaunchError
  | traced (taskExitCode : Int)
  deriving DecidableEq, Repr

/-- The tool's own process exit code for each outcome, read off the
source: the explicit `process.exit(1)` calls for usage and platform
errors, the `.catch(err => { ...; process.exit(1); })` wrapper for a
rejected `main()` promise, and the `.then(() => { process.exit(0); })`
wrapper (part_002 lines 955-962) which exits with 0 whenever `main()`
resolves — regardless of the traced task's exit code, which is only
printed and embedded in the JSON report. -/
def toolExitCode : MainOutcome → Int
  | MainOutcome.usageError => 1
  | MainOutcome.unsupportedPlatform => 1
  | MainOutcome.tracerLaunchError => 1
  | MainOutcome.traced _ => 0

-- ==========================================================================
-- Concrete material for the claims: strace flag tokens, line builders,
-- and scenario constants
-- ==========================================================================

/-- Pipe-joined rendering of a flag token list, as strace prints the
third `openat` argument. -/
def joinPipe : List Str → Str
  | [] => []
  | [t] => t
  | t :: rest => t ++ '|' :: joinPipe rest

/-- The standard `O_*` open-flag macro names strace can print in an
`openat` flags field. -/
def straceFlagNames : List Str :=
  ["O_RDONLY".toList, "O_WRONLY".toList, "O_RDWR".toList, "O_CREAT".toList,
   "O_EXCL".toList, "O_NOCTTY".toList, "O_TRUNC".toList, "O_APPEND".toList,
   "O_NONBLOCK".toList, "O_DSYNC".toList, "O_ASYNC".toList, "O_DIRECT".toList,
   "O_LARGEFILE".toList, "O_DIRECTORY".toList, "O_NOFOLLOW".toList,
   "O_NOATIME".toList, "O_CLOEXEC".toList, "O_SYNC".toList, "O_PATH".toList,
   "O_TMPFILE".toList]

/-- A syscall-trace line of the shape described by the specification:
`openat(AT_FDCWD, "<path>", <flags>) = <fd>`. -/
def mkOpenatLine (path flags fd : Str) : Str :=
  straceOpenatPre ++ [' ', '"'] ++ path ++ ['"', ',', ' '] ++ flags ++ [')', ' ', '=', ' '] ++ fd

/-- The cyclic named-group table of the specification's cycle-safety
scenario: group `A` references `B` and `B` references `A`. -/
def cycGroupTable : NamedTable :=
  [("A".toList, [NxInput.str "B".toList]), ("B".toList, [NxInput.str "A".toList])]

/-- A raw target with no declared fields. -/
def emptyTarget : RawTarget :=
  { inputs := none, outputs := none, dependsOn := none, cache := none }

/-- Scenario for claim C2: the task under test belongs to a project
rooted at `libs`, and a second project of the workspace is rooted at
`libs/b`, nested below it. -/
def c2Cfg : TaskCfg :=
  { project := "lib-root".toList, root := "libs".toList, target := emptyTarget,
    inputs := [], outputs := [], cache := false }

/-- Classification environment of the C2 scenario: no resolved inputs,
no directories, project graph containing the nested root. -/
def c2Env : ClassifyEnv :=
  { workspaceRoot := "/w".toList, namedTable := [], taskConfigs := [c2Cfg],
    resolvedInputs := none, allProjectRoots := ["libs/b".toList],
    isDir := fun _ => false }

/-- The observed read of the C2 scenario: a file of the nested project. -/
def c2File : Str := "libs/b/data.txt".toList

/-- Target of task A in the C3 scenario: it depends on the other
project's task through a `^` dependency. -/
def c3TargetA : RawTarget :=
  { inputs := none, outputs := none,
    dependsOn := some [DepRef.str "^build".toList], cache := some true }

/-- Target of task B in the C3 scenario: its declared outputs cover its
whole `dist` directory. -/
def c3TargetB : RawTarget :=
  { inputs := none, outputs := some [NxInput.str "{projectRoot}/dist/**".toList],
    dependsOn := none, cache := some true }

/-- Task-graph oracle of the C3 scenario. -/
def c3Oracle : NxOracle :=
  [("a".toList, { root := "libs/a".toList, targets := [("build".toList, c3TargetA)] }),
   ("b".toList, { root := "libs/b".toList, targets := [("build".toList, c3TargetB)] })]

/-- The configuration `getTaskConfig` collects for task A in the C3
scenario (the `^build` dependency is skipped as cross-project). -/
def c3CfgA : TaskCfg :=
  { project := "a".toList, root := "libs/a".toList, target := c3TargetA,
    inputs := [], outputs := [], cache := true }

/-- The single file of project B that task A reads in the C3 scenario;
it is covered by B's declared output pattern. -/
def c3File : Str := "libs/b/dist/out.txt".toList

/-- Classification environment of the C3 counterexample run: the
HashPlanInspector query failed (`resolvedInputs = none`), so nothing
suppresses the cross-project read. -/
def c3Env : ClassifyEnv :=
  { workspaceRoot := "/w".toList, namedTable := [], taskConfigs := [c3CfgA],
    resolvedInputs := none,
    allProjectRoots := ["libs/a".toList, "libs/b".toList],
    isDir := fun _ => false }

/-- The same C3 run with the file present in the resolved-input set. -/
def c3EnvResolved : ClassifyEnv :=
  { workspaceRoot := "/w".toList, namedTable := [], taskConfigs := [c3CfgA],
    resolvedInputs := some [c3File],
    allProjectRoots := ["libs/a".toList, "libs/b".toList],
    isDir := fun _ => false }

/-- Declared target of the C8 scenario task, with the input and output
of the specification's end-to-end scenario. -/
def c8Target : RawTarget :=
  { inputs := some [NxInput.str "data/input.txt".toList],
    outputs := some [NxInput.str "dist/output.txt".toList],
    dependsOn := none, cache := some true }

/-- The C8 scenario task configuration, for a given project root. -/
def c8Cfg (root : Str) : TaskCfg :=
  { project := "p".toList, root := root, target := c8Target,
    inputs := [NxInput.str "data/input.txt".toList],
    outputs := [NxInput.str "dist/output.txt".toList], cache := true }

/-- The C8 scenario environment, for a given project root. -/
def c8Env (root : Str) : ClassifyEnv :=
  { workspaceRoot := "/w".toList, namedTable := [], taskConfigs := [c8Cfg root],
    resolvedInputs := none, allProjectRoots := [], isDir := fun _ => false }

/-- Observed reads of the C8 scenario. -/
def c8Reads : List Str := ["data/input.txt".toList, "undeclared-input.txt".toList]

/-- Observed writes of the C8 scenario. -/
def c8Writes : List Str := ["dist/output.txt".toList, "dist/extra.txt".toList]

/-- The C8 scenario re-rooted under a project directory `p`, so that
every observed path lies inside the task's project root. -/
def c8pCfg : TaskCfg :=
  { project := "p".toList, root := "p".toList,
    target :=
      { inputs := some [NxInput.str "p/data/input.txt".toList],
        outputs := some [NxInput.str "p/dist/output.txt".toList],
        dependsOn := none, cache := some true },
    inputs := [NxInput.str "p/data/input.txt".toList],
    outputs := [NxInput.str "p/dist/output.txt".toList], cache := true }

/-- Environment of the re-rooted C8 scenario. -/
def c8pEnv : ClassifyEnv :=
  { workspaceRoot := "/w".toList, namedTable := [], taskConfigs := [c8pCfg],
    resolvedInputs := none, allProjectRoots := [], isDir := fun _ => false }

/-- Observed reads of the re-rooted C8 scenario. -/
def c8pReads : List Str := ["p/data/input.txt".toList, "p/undeclared-input.txt".toList]

/-- Observed writes of the re-rooted C8 scenario. -/
def c8pWrites : List Str := ["p/dist/output.txt".toList, "p/dist/extra.txt".toList]

/-- A dependency target that exists in the C9 scenario. -/
def c9Prep : RawTarget :=
  { inputs := some [NxInput.str "p9/src/**".toList], outputs := none,
    dependsOn := none, cache := some true }

/-- The C9 main target: it depends on the existing `prep` task and on a
`missing` task whose spec query fails. -/
def c9Build : RawTarget :=
  { inputs := none, outputs := none,
    dependsOn := some [DepRef.str "prep".toList, DepRef.str "missing".toList],
    cache := some true }

/-- Task-graph oracle of the C9 scenario: the `missing` target is not
declared, so its config query fails. -/
def c9Oracle : NxOracle :=
  [("p9".toList,
    { root := "libs/p9".toList,
      targets := [("build".toList, c9Build), ("prep".toList, c9Prep)] })]

/-- The collected config of the C9 main task. -/
def c9CfgBuild : TaskCfg :=
  { project := "p9".toList, root := "libs/p9".toList, target := c9Build,
    inputs := [], outputs := [], cache := true }

/-- The collected config of the C9 `prep` dependency. -/
def c9CfgPrep : TaskCfg :=
  { project := "p9".toList, root := "libs/p9".toList, target := c9Prep,
    inputs := [NxInput.str "p9/src/**".toList], outputs := [], cache := true }

/-- A C2 variant whose other-project root is disjoint from the task's
project root (the common, non-nested layout). -/
def c2wCfg : TaskCfg :=
  { project := "a".toList, root := "libs/a".toList, target := emptyTarget,
    inputs := [], outputs := [], cache := false }

/-- Environment of the disjoint-roots C2 variant. -/
def c2wEnv : ClassifyEnv :=
  { workspaceRoot := "/w".toList, namedTable := [], taskConfigs := [c2wCfg],
    resolvedInputs := none, allProjectRoots := ["libs/b".toList],
    isDir := fun _ => false }

/-- The observed cross-project read of the disjoint-roots C2 variant. -/
def c2wFile : Str := "libs/b/x.txt".toList

-- ==========================================================================
-- General lemmas
-- ==========================================================================

theorem strStartsWith_iff (pre s : Str) : strStartsWith s pre = true ↔ pre <+: s := by
  induction pre generalizing s with
  | nil => simp [strStartsWith]
  | cons p ps ih =>
    cases s with
    | nil => simp [strStartsWith]
    | cons c cs =>
      simp only [strStartsWith, Bool.and_eq_true, beq_iff_eq, ih, List.cons_prefix_cons]

theorem strStartsWith_append (a b : Str) : strStartsWith (a ++ b) a = true :=
  (strStartsWith_iff a (a ++ b)).mpr (List.prefix_append a b)

theorem containsSub_iff (needle s : Str) : containsSub needle s = true ↔ needle <:+: s := by
  induction s with
  | nil => cases needle <;> simp [containsSub, strStartsWith]
  | cons c rest ih =>
    simp [containsSub, ih, strStartsWith_iff, List.infix_cons_iff]

theorem takeWhile_all_append (p : Char → Bool) (a : Str) (c : Char) (b : Str)
    (ha : ∀ x ∈ a, p x = true) (hc : p c = false) :
    (a ++ c :: b).takeWhile p = a ∧ (a ++ c :: b).dropWhile p = c :: b := by
  induction a with
  | nil => simp [List.takeWhile_cons, List.dropWhile_cons, hc]
  | cons x xs ih =>
    have hx : p x = true := ha x (by simp)
    have ih2 := ih (fun y hy => ha y (by simp [hy]))
    simp [List.takeWhile_cons, List.dropWhile_cons, hx, ih2.1, ih2.2]

theorem mem_insertSorted (x y : Str) (l : List Str) :
    y ∈ insertSorted x l ↔ y = x ∨ y ∈ l := by
  induction l with
  | nil => simp [insertSorted]
  | cons z zs ih =>
    simp only [insertSorted]
    split
    · simp [List.mem_cons]
    · simp only [List.mem_cons, ih]
      tauto

theorem mem_sortStrs (x : Str) (l : List Str) : x ∈ sortStrs l ↔ x ∈ l := by
  induction l with
  | nil => exact Iff.rfl
  | cons y ys ih =>
    rw [show sortStrs (y :: ys) = insertSorted y (sortStrs ys) from rfl,
      mem_insertSorted, ih]
    exact (List.mem_cons).symm

theorem replaceAllAux_no_occur (pat repl s : Str) (h : containsSub pat s = false) :
    replaceAllAux pat repl 0 s = s := by
  induction s with
  | nil => rfl
  | cons c rest ih =>
    simp only [containsSub, Bool.or_eq_false_iff] at h
    simp only [replaceAllAux]
    rw [if_neg (fun hcon => by rw [h.1] at hcon; exact Bool.noConfusion hcon.2)]
    exact congrArg (c :: ·) (ih h.2)

theorem replaceAll_no_occur (pat repl s : Str) (h : containsSub pat s = false) :
    replaceAll pat repl s = s :=
  replaceAllAux_no_occur pat repl s h

-- ==========================================================================
-- Unfolding equations for the well-founded definitions
-- ==========================================================================

theorem resolveGo_obj (t : NamedTable) (visited : List Str) :
    resolveGo t NxInput.obj visited = ([], []) := by
  unfold resolveGo
  rfl

theorem resolveGo_visited (t : NamedTable) (s : Str) (visited : List Str)
    (hv : s ∈ visited) : resolveGo t (NxInput.str s) visited = ([], []) := by
  unfold resolveGo
  rw [dif_pos hv]

theorem resolveGo_group (t : NamedTable) (s : Str) (visited : List Str)
    (ps : List NxInput) (hv : s ∉ visited) (hl : assocLookup t s = some ps) :
    resolveGo t (NxInput.str s) visited =
      ((resolveList t ps (s :: visited)).1,
       (resolveList t ps (s :: visited)).2 ++ [s]) := by
  unfold resolveGo
  rw [dif_neg hv]
  split
  · rename_i ps2 heq
    rw [hl] at heq
    injection heq with h2
    subst h2
    rfl
  · rename_i heq
    rw [hl] at heq
    cases heq

theorem resolveGo_literal (t : NamedTable) (s : Str) (visited : List Str)
    (hv : s ∉ visited) (hl : assocLookup t s = none)
    (hl2 : strStartsWith s ['^'] = true → assocLookup t (s.drop 1) = none) :
    resolveGo t (NxInput.str s) visited = ([s], []) := by
  unfold resolveGo
  rw [dif_neg hv]
  split
  · rename_i ps2 heq
    rw [hl] at heq
    cases heq
  · by_cases hc : strStartsWith s ['^'] = true
    · rw [dif_pos hc]
      split
      · rename_i ps2 heq2
        rw [hl2 hc] at heq2
        cases heq2
      · rfl
    · rw [dif_neg hc]

theorem resolveList_nil (t : NamedTable) (visited : List Str) :
    resolveList t [] visited = ([], []) := by
  unfold resolveList
  rfl

theorem resolveList_cons (t : NamedTable) (p : NxInput) (rest : List NxInput)
    (visited : List Str) :
    resolveList t (p :: rest) visited =
      ((resolveGo t p visited).1 ++
        (resolveList t rest ((resolveGo t p visited).2 ++ visited)).1,
       (resolveList t rest ((resolveGo t p visited).2 ++ visited)).2 ++
        (resolveGo t p visited).2) := by
  conv_lhs => rw [resolveList]

theorem caretKey_mem (t : NamedTable) (s : Str) (ps : List NxInput)
    (hc : strStartsWith s ['^'] = true) (hl2 : assocLookup t (s.drop 1) = some ps) :
    s ∈ allGroupKeys t := by
  cases s with
  | nil => simp [strStartsWith] at hc
  | cons c cs =>
    simp only [strStartsWith, Bool.and_eq_true, beq_iff_eq] at hc
    obtain ⟨hc1, -⟩ := hc
    subst hc1
    have hm := assocLookup_mem t _ ps hl2
    simp only [List.drop_succ_cons, List.drop_zero] at hm
    obtain ⟨kv, hkv, hkv2⟩ := List.mem_map.mp hm
    exact List.mem_append.mpr (Or.inr (List.mem_map.mpr ⟨kv, hkv, by rw [hkv2]⟩))

theorem resolveGo_caret (t : NamedTable) (s : Str) (visited : List Str)
    (ps : List NxInput) (hv : s ∉ visited) (hl : assocLookup t s = none)
    (hc : strStartsWith s ['^'] = true) (hl2 : assocLookup t (s.drop 1) = some ps) :
    resolveGo t (NxInput.str s) visited =
      ((resolveList t ps (s :: visited)).1,
       (resolveList t ps (s :: visited)).2 ++ [s]) := by
  unfold resolveGo
  rw [dif_neg hv]
  split
  · rename_i ps2 heq
    rw [hl] at heq
    cases heq
  · rw [dif_pos hc]
    split
    · rename_i ps2 heq2
      rw [hl2] at heq2
      injection heq2 with h2
      subst h2
      rfl
    · rename_i heq2
      rw [hl2] at heq2
      cases heq2

theorem collectConfigs_visited (oracle : NxOracle) (proj tgt : Str) (visited : List Str)
    (hv : (proj ++ ':' :: tgt) ∈ visited) :
    collectConfigs oracle proj tgt visited = ([], []) := by
  unfold collectConfigs
  rw [dif_pos hv]

theorem collectConfigs_fail (oracle : NxOracle) (proj tgt : Str) (visited : List Str)
    (hv : (proj ++ ':' :: tgt) ∉ visited)
    (hc : getNxProjectConfig oracle proj tgt = none) :
    collectConfigs oracle proj tgt visited = ([], [proj ++ ':' :: tgt]) := by
  unfold collectConfigs
  rw [dif_neg hv]
  split
  · rfl
  · rename_i config heq
    rw [hc] at heq
    cases heq

theorem collectConfigs_success (oracle : NxOracle) (proj tgt : Str) (visited : List Str)
    (config : TaskCfg) (hv : (proj ++ ':' :: tgt) ∉ visited)
    (hc : getNxProjectConfig oracle proj tgt = some config) :
    collectConfigs oracle proj tgt visited =
      (config :: (collectDeps oracle proj (config.target.dependsOn.getD [])
          ((proj ++ ':' :: tgt) :: visited)).1,
       (collectDeps oracle proj (config.target.dependsOn.getD [])
          ((proj ++ ':' :: tgt) :: visited)).2 ++ [proj ++ ':' :: tgt]) := by
  unfold collectConfigs
  rw [dif_neg hv]
  split
  · rename_i heq
    rw [hc] at heq
    cases heq
  · rename_i config2 heq
    rw [hc] at heq
    injection heq with h2
    subst h2
    rfl

theorem collectDeps_nil (oracle : NxOracle) (proj : Str) (visited : List Str) :
    collectDeps oracle proj [] visited = ([], []) := by
  unfold collectDeps
  rfl

theorem collectDeps_cons_none (oracle : NxOracle) (proj : Str) (dep : DepRef)
    (rest : List DepRef) (visited : List Str) (h : depTargetOf proj dep = none) :
    collectDeps oracle proj (dep :: rest) visited =
      collectDeps oracle proj rest visited := by
  conv_lhs => rw [collectDeps]
  simp [h]

theorem collectDeps_cons_go (oracle : NxOracle) (proj : Str) (dep : DepRef)
    (rest : List DepRef) (visited : List Str) (dt : Str)
    (h : depTargetOf proj dep = some dt) (hne : dt.isEmpty = false) :
    collectDeps oracle proj (dep :: rest) visited =
      ((collectConfigs oracle proj dt visited).1 ++
        (collectDeps oracle proj rest
          ((collectConfigs oracle proj dt visited).2 ++ visited)).1,
       (collectDeps oracle proj rest
          ((collectConfigs oracle proj dt visited).2 ++ visited)).2 ++
        (collectConfigs oracle proj dt visited).2) := by
  conv_lhs => rw [collectDeps]
  simp [h, hne]

/-- Tokens are added to the resolver's visited set at most once: starting
from a duplicate-free visited set, the set after resolution is still
duplicate-free, so no group reference is ever expanded twice in one
resolution. -/
theorem resolve_nodup_all : ∀ n : Nat,
    (∀ (t : NamedTable) (input : NxInput) (visited : List Str),
      countNotMem (allGroupKeys t) visited ≤ n → visited.Nodup →
      ((resolveGo t input visited).2 ++ visited).Nodup) ∧
    (∀ (t : NamedTable) (inputs : List NxInput) (visited : List Str),
      countNotMem (allGroupKeys t) visited ≤ n → visited.Nodup →
      ((resolveList t inputs visited).2 ++ visited).Nodup) := by
  intro n
  induction n using Nat.strong_induction_on with
  | _ n IH =>
    have Pn : ∀ (t : NamedTable) (input : NxInput) (visited : List Str),
        countNotMem (allGroupKeys t) visited ≤ n → visited.Nodup →
        ((resolveGo t input visited).2 ++ visited).Nodup := by
      intro t input visited hmu hnd
      match input with
      | NxInput.obj =>
        rw [resolveGo_obj]
        simpa using hnd
      | NxInput.str s =>
        by_cases hv : s ∈ visited
        · rw [resolveGo_visited t s visited hv]
          simpa using hnd
        · cases hl : assocLookup t s with
          | some ps =>
            rw [resolveGo_group t s visited ps hv hl]
            have hkey : s ∈ allGroupKeys t :=
              List.mem_append.mpr (Or.inl (assocLookup_mem t s ps hl))
            have hlt := countNotMem_cons_lt (allGroupKeys t) visited s hkey hv
            have hm : countNotMem (allGroupKeys t) (s :: visited) < n :=
              lt_of_lt_of_le hlt hmu
            have hq := (IH _ hm).2 t ps (s :: visited) (le_refl _)
              (List.nodup_cons.mpr ⟨hv, hnd⟩)
            simpa [List.append_assoc] using hq
          | none =>
            by_cases hc : strStartsWith s ['^'] = true
            · cases hl2 : assocLookup t (s.drop 1) with
              | some ps =>
                rw [resolveGo_caret t s visited ps hv hl hc hl2]
                have hkey : s ∈ allGroupKeys t := caretKey_mem t s ps hc hl2
                have hlt := countNotMem_cons_lt (allGroupKeys t) visited s hkey hv
                have hm : countNotMem (allGroupKeys t) (s :: visited) < n :=
                  lt_of_lt_of_le hlt hmu
                have hq := (IH _ hm).2 t ps (s :: visited) (le_refl _)
                  (List.nodup_cons.mpr ⟨hv, hnd⟩)
                simpa [List.append_assoc] using hq
              | none =>
                rw [resolveGo_literal t s visited hv hl (fun _ => hl2)]
                simpa using hnd
            · rw [resolveGo_literal t s visited hv hl (fun h => absurd h hc)]
              simpa using hnd
    have Qn : ∀ (t : NamedTable) (inputs : List NxInput) (visited : List Str),
        countNotMem (allGroupKeys t) visited ≤ n → visited.Nodup →
        ((resolveList t inputs visited).2 ++ visited).Nodup := by
      intro t inputs
      induction inputs with
      | nil =>
        intro visited hmu hnd
        rw [resolveList_nil]
        simpa using hnd
      | cons p rest ihl =>
        intro visited hmu hnd
        rw [resolveList_cons]
        have h1 := Pn t p visited hmu hnd
        have hmu2 : countNotMem (allGroupKeys t) ((resolveGo t p visited).2 ++ visited) ≤ n :=
          le_trans (countNotMem_append_le _ _ _) hmu
        have h2 := ihl ((resolveGo t p visited).2 ++ visited) hmu2 h1
        simpa [List.append_assoc] using h2
    exact ⟨Pn, Qn⟩

-- ==========================================================================
-- Claim C1
-- ==========================================================================

/-- Claim C1 as stated is false: here is an invocation in which tracing
succeeds and the traced task exits with code 2, yet the tool's own
process exit code is 0 (the `.then(() => process.exit(0))` wrapper at
part_002 lines 955-958), not 2. -/
theorem c1_counterexample_exit_not_mirrored :
    toolExitCode (MainOutcome.traced 2) = 0 ∧ (0 : Int) ≠ 2 :=
  ⟨rfl, by decide⟩

/-- Claim C1 amended: for every invocation in which tracing succeeds the
tool exits with code 0 regardless of the traced task's exit code — the
task's exit code is carried only in the `exitCode` field of the
structured report — while a usage error, an unsupported platform, or a
tracer launch failure exits with code 1. -/
theorem c1_exit_codes (e : Int) (env : ClassifyEnv) (reads writes : List Str)
    (target : Str) :
    toolExitCode (MainOutcome.traced e) = 0 ∧
    toolExitCode MainOutcome.unsupportedPlatform = 1 ∧
    toolExitCode MainOutcome.tracerLaunchError = 1 ∧
    toolExitCode MainOutcome.usageError = 1 ∧
    (runReport env reads writes target e).exitCode = e :=
  ⟨rfl, rfl, rfl, rfl, rfl⟩

-- ==========================================================================
-- Claim C2
-- ==========================================================================

/-- Claim C2 as stated is false: when the other project's root is nested
inside the task-under-test's project root, an uncovered cross-project
read appears in `crossProjectReads` and *also* in `undeclaredReads` — it
is not excluded from the plain undeclared list.  (Moreover the
structured report's `crossProjectReads` entries are bare path strings,
as the `Report` type shows; the `fromProject` tag appears only in the
console rendering.) -/
theorem c2_counterexample_also_undeclared_read :
    isInOtherProject c2Env c2File = some "libs/b".toList ∧
    c2File ∈ (runReport c2Env [c2File] [] "build".toList 0).crossProjectReads ∧
    c2File ∈ (runReport c2Env [c2File] [] "build".toList 0).undeclaredReads := by
  refine ⟨by decide, by decide, by decide⟩

/-- Claim C2 amended: an observed read under another project's root, not
covered by the resolved inputs, yields an entry (the bare path) in the
report's `crossProjectReads`, with the owning project root computed by
`isInOtherProject`; and it is kept out of `undeclaredReads` whenever it
fails the project-relevance filter (as in the common layout where the
other project's root is not nested inside the task's own root). -/
theorem c2_cross_project_classification (env : ClassifyEnv) (reads writes : List Str)
    (target : Str) (e : Int) (f p2 : Str)
    (hmem : f ∈ reads) (hinfra : isNxInfrastructure f = false)
    (hdir : env.isDir f = false)
    (hother : isInOtherProject env f = some p2)
    (hres : isInResolvedInputs env f = false)
    (hrel : isRelevantToProject env f = false) :
    f ∈ (runReport env reads writes target e).crossProjectReads ∧
    f ∉ (runReport env reads writes target e).undeclaredReads := by
  simp only [runReport]
  constructor
  · exact List.mem_filter.mpr ⟨List.mem_filter.mpr ⟨hmem, by simp [hinfra]⟩,
      by simp [hdir, hother, hres]⟩
  · intro hcon
    have h2 := (List.mem_filter.mp hcon).2
    rw [hrel] at h2
    simp at h2

/-- Witness for the amended C2 at the disjoint-roots scenario. -/
theorem c2_cross_project_classification_witness :
    c2wFile ∈ (runReport c2wEnv [c2wFile] [] "build".toList 0).crossProjectReads ∧
    c2wFile ∉ (runReport c2wEnv [c2wFile] [] "build".toList 0).undeclaredReads :=
  c2_cross_project_classification c2wEnv [c2wFile] [] "build".toList 0 c2wFile
    "libs/b".toList (by decide) (by decide) rfl (by decide) rfl (by decide)

-- ==========================================================================
-- Claim C3
-- ==========================================================================

/-- Claim C3 as stated is false: task A (project `a`) depends on task B
(project `b`) through a `^build` dependency, B's declared output pattern
`{projectRoot}/dist/**` covers the only file of B's that A reads, and
yet the run reports that file as a cross-project violation — the
dependency's declared outputs are never consulted by the
`crossProjectReads` filter, which only checks the resolved-input set
(here unavailable, `resolvedInputs = none`). -/
theorem c3_counterexample_declared_outputs_ignored :
    getTaskConfig c3Oracle "a".toList "build".toList = [c3CfgA] ∧
    matchesPatterns [] "/w".toList c3File
      [NxInput.str "{projectRoot}/dist/**".toList] "libs/b".toList = true ∧
    (runReport c3Env [c3File] [] "build".toList 0).crossProjectReads = [c3File] := by
  refine ⟨?_, ?_, by decide⟩
  · show (collectConfigs c3Oracle "a".toList "build".toList []).1 = [c3CfgA]
    rw [collectConfigs_success c3Oracle "a".toList "build".toList [] c3CfgA
      (by decide) rfl]
    have hd : c3CfgA.target.dependsOn.getD [] = [DepRef.str "^build".toList] := rfl
    rw [hd, collectDeps_cons_none _ _ _ _ _
      (show depTargetOf "a".toList (DepRef.str "^build".toList) = none from rfl),
      collectDeps_nil]
  · have e1 : resolveGo ([] : NamedTable)
        (NxInput.str "{projectRoot}/dist/**".toList) [] =
        (["{projectRoot}/dist/**".toList], []) :=
      resolveGo_literal _ _ _ (by simp) rfl (fun _ => rfl)
    have e2 : expandInputs ([] : NamedTable)
        [NxInput.str "{projectRoot}/dist/**".toList] =
        (["{projectRoot}/dist/**".toList], []) := by
      simp only [expandInputs, List.foldl_cons, List.foldl_nil, resolveNamedInput, e1]
      decide
    simp only [matchesPatterns, e2]
    decide

/-- Claim C3 amended: the run reports zero cross-project violations
exactly when every observed read that is a non-directory file inside
another project's root (and not build-system bookkeeping) is contained
in the HashPlanInspector-resolved input set; a dependency's declared
output patterns play no role in either direction. -/
theorem c3_resolved_inputs_suppress_cross_project (env : ClassifyEnv)
    (reads writes : List Str) (target : Str) (e : Int) :
    ((runReport env reads writes target e).crossProjectReads = [] ↔
      ∀ f ∈ reads, isNxInfrastructure f = false → env.isDir f = false →
        (isInOtherProject env f).isSome = true →
        isInResolvedInputs env f = true) := by
  simp only [runReport]
  rw [List.filter_eq_nil_iff]
  constructor
  · intro h f hf hinf hdir hot
    have hmem : f ∈ reads.filter (fun f => !isNxInfrastructure f) :=
      List.mem_filter.mpr ⟨hf, by rw [hinf]; rfl⟩
    have h2 := h f hmem
    by_cases hres : isInResolvedInputs env f = true
    · exact hres
    · exfalso
      apply h2
      rw [hdir, hot, Bool.eq_false_iff.mpr hres]
      rfl
  · intro h f hf
    have hf2 : f ∈ reads := (List.mem_filter.mp hf).1
    have hinf : isNxInfrastructure f = false := by
      have hn := (List.mem_filter.mp hf).2
      rw [Bool.not_eq_true'] at hn
      exact hn
    intro hp
    simp only [Bool.and_eq_true, Bool.not_eq_true'] at hp
    obtain ⟨⟨hdir, hot⟩, hres⟩ := hp
    exact absurd (h f hf2 hinf hdir hot)
      (by rw [hres]; exact Bool.false_ne_true)

/-- Witness for the amended C3: with the file present in the
resolved-input set the run reports zero cross-project violations, and
with the resolved-input query unavailable it does not. -/
theorem c3_resolved_inputs_suppress_cross_project_witness :
    (runReport c3EnvResolved [c3File] [] "build".toList 0).crossProjectReads = [] :=
  (c3_resolved_inputs_suppress_cross_project c3EnvResolved [c3File] []
    "build".toList 0).mpr (by decide)

-- ==========================================================================
-- Claim C6
-- ==========================================================================

/-- Claim C6 confirmed: pattern resolution is total (the embedded
resolver is defined by well-founded recursion on the unvisited group
tokens, mirroring the source's visited-set guard), the specification's
cyclic table (A references B, B references A) resolves to the empty
pattern list without divergence, and tokens are never revisited: from a
duplicate-free visited set the resolver returns a visited set that is
still duplicate-free, so each group reference is expanded at most once
per resolution. -/
theorem c6_resolution_terminates_on_cycles :
    resolveNamedInput cycGroupTable (NxInput.str "A".toList) = [] ∧
    expandInputs cycGroupTable [NxInput.str "A".toList] = ([], []) ∧
    (∀ (t : NamedTable) (input : NxInput) (visited : List Str), visited.Nodup →
      ((resolveGo t input visited).2 ++ visited).Nodup) := by
  have e3 : resolveGo cycGroupTable (NxInput.str "A".toList)
      ["B".toList, "A".toList] = ([], []) :=
    resolveGo_visited _ _ _ (by decide)
  have e4 : resolveList cycGroupTable [NxInput.str "A".toList]
      ["B".toList, "A".toList] = ([], []) := by
    rw [resolveList_cons, e3, resolveList_nil]
    rfl
  have e5 : resolveGo cycGroupTable (NxInput.str "B".toList) ["A".toList] =
      ([], ["B".toList]) := by
    rw [resolveGo_group cycGroupTable "B".toList ["A".toList]
      [NxInput.str "A".toList] (by decide) rfl, e4]
    rfl
  have e6 : resolveList cycGroupTable [NxInput.str "B".toList] ["A".toList] =
      ([], ["B".toList]) := by
    rw [resolveList_cons, e5, resolveList_nil]
    rfl
  have e7 : resolveGo cycGroupTable (NxInput.str "A".toList) [] =
      ([], ["B".toList, "A".toList]) := by
    rw [resolveGo_group cycGroupTable "A".toList [] [NxInput.str "B".toList]
      (by simp) rfl, e6]
    rfl
  refine ⟨?_, ?_, ?_⟩
  · show (resolveGo cycGroupTable (NxInput.str "A".toList) []).1 = []
    rw [e7]
  · simp only [expandInputs, List.foldl_cons, List.foldl_nil, resolveNamedInput, e7]
  · intro t input visited hnd
    exact (resolve_nodup_all (countNotMem (allGroupKeys t) visited)).1 t input visited
      (le_refl _) hnd

/-- Witness for C6's universal part at a concrete input. -/
theorem c6_resolution_terminates_on_cycles_witness :
    ((resolveGo cycGroupTable (NxInput.str "A".toList) []).2 ++ ([] : List Str)).Nodup :=
  c6_resolution_terminates_on_cycles.2.2 cycGroupTable (NxInput.str "A".toList) []
    (by simp)

-- ==========================================================================
-- Claim C10
-- ==========================================================================

/-- Claim C10 as stated is false: a filesystem-monitor line whose flag
field is shorter than the fixed positions the parser indexes (here a
one-character field `(R)`, while the parser indexes positions 0, 1, 2
and 4) is not skipped — the regex only requires a nonempty field, the
out-of-range positions read as unset, and the line changes the reads
set. -/
theorem c10_counterexample_short_flag_line_processed :
    parseFsUsageOutput "/ws".toList "0:00 open F=3 (R) /ws/f".toList =
      (["f".toList], []) ∧
    (["f".toList] : List Str) ≠ ([] : List Str) :=
  ⟨by decide, by decide⟩

/-- Claim C10 amended: both trace parsers are total on arbitrary text
(they are structurally recursive functions), and every line on which the
backend's regex finds no match is skipped, leaving the reads and writes
sets unchanged; an entire text with no matching line parses to the empty
access set.  (A line that does match with a short flag field is still
processed, with out-of-range flag positions reading as unset.) -/
theorem c10_parsers_skip_unmatched_lines (workspaceRoot line : Str)
    (acc : List Str × List Str) (text : Str)
    (h1 : findOpenat line = none) (h2 : fsFindOpen none line = none) :
    parseStraceLine workspaceRoot acc line = acc ∧
    parseFsUsageLine workspaceRoot acc line = acc ∧
    ((∀ l ∈ splitLines text, findOpenat l = none) →
      parseStraceOutput workspaceRoot text = ([], [])) := by
  refine ⟨?_, ?_, ?_⟩
  · unfold parseStraceLine
    rw [h1]
  · unfold parseFsUsageLine
    split
    · rfl
    · rw [h2]
  · intro hall
    have hfold : ∀ (lines : List Str) (acc2 : List Str × List Str),
        (∀ l ∈ lines, findOpenat l = none) →
        lines.foldl (parseStraceLine workspaceRoot) acc2 = acc2 := by
      intro lines
      induction lines with
      | nil => intro acc2 _; rfl
      | cons l ls ih =>
        intro acc2 hl
        rw [List.foldl_cons]
        have hstep : parseStraceLine workspaceRoot acc2 l = acc2 := by
          unfold parseStraceLine
          rw [hl l (by simp)]
        rw [hstep]
        exact ih acc2 (fun x hx => hl x (by simp [hx]))
    unfold parseStraceOutput
    rw [hfold (splitLines text) ([], []) hall]
    rfl

/-- Witness for the amended C10 at a concrete garbage line and text. -/
theorem c10_parsers_skip_unmatched_lines_witness :
    parseStraceLine "/ws".toList (["x".toList], ["y".toList]) "garbage".toList =
      (["x".toList], ["y".toList]) ∧
    parseFsUsageLine "/ws".toList (["x".toList], ["y".toList]) "garbage".toList =
      (["x".toList], ["y".toList]) ∧
    ((∀ l ∈ splitLines "garbage\nmore".toList, findOpenat l = none) →
      parseStraceOutput "/ws".toList "garbage\nmore".toList = ([], [])) :=
  c10_parsers_skip_unmatched_lines "/ws".toList "garbage".toList
    (["x".toList], ["y".toList]) "garbage\nmore".toList (by decide) (by decide)

-- ==========================================================================
-- Claim C5
-- ==========================================================================

theorem matchesPatterns_eq (t : NamedTable) (ws f : Str) (inputs : List NxInput)
    (root : Str) :
    matchesPatterns t ws f inputs root =
      ((expandInputs t inputs).1.any (fun p => matchesSinglePattern ws
          (if strStartsWith f ['/'] then f else nodeJoin ws f) p root) &&
       !((expandInputs t inputs).2.any (fun n => matchesSinglePattern ws
          (if strStartsWith f ['/'] then f else nodeJoin ws f) n root))) := by
  unfold matchesPatterns
  cases h1 : (expandInputs t inputs).1.any (fun p => matchesSinglePattern ws
      (if strStartsWith f ['/'] then f else nodeJoin ws f) p root) with
  | false => simp [h1]
  | true =>
    cases h2 : (expandInputs t inputs).2.any (fun n => matchesSinglePattern ws
        (if strStartsWith f ['/'] then f else nodeJoin ws f) n root) with
    | false => simp [h1, h2]
    | true => simp [h1, h2]

/-- Claim C5 confirmed: the pattern matcher declares a path exactly when
some positive pattern matches it and no negation pattern does, so a
negation can only subtract and never independently declares; in
particular positive `src/**` with negation `!src/generated/**` rejects
`src/generated/x.ts`, accepts `src/a.ts`, and a negation alone declares
nothing. -/
theorem c5_negation_only_subtracts :
    (∀ (t : NamedTable) (ws f : Str) (inputs : List NxInput) (root : Str),
      matchesPatterns t ws f inputs root = true ↔
        ((∃ p ∈ (expandInputs t inputs).1, matchesSinglePattern ws
            (if strStartsWith f ['/'] then f else nodeJoin ws f) p root = true) ∧
         (∀ n ∈ (expandInputs t inputs).2, matchesSinglePattern ws
            (if strStartsWith f ['/'] then f else nodeJoin ws f) n root = false))) ∧
    matchesPatterns [] "/w".toList "src/generated/x.ts".toList
      [NxInput.str "src/**".toList, NxInput.str "!src/generated/**".toList]
      "p".toList = false ∧
    matchesPatterns [] "/w".toList "src/a.ts".toList
      [NxInput.str "src/**".toList, NxInput.str "!src/generated/**".toList]
      "p".toList = true ∧
    matchesPatterns [] "/w".toList "src/generated/x.ts".toList
      [NxInput.str "!src/generated/**".toList] "p".toList = false := by
  have r1 : resolveGo ([] : NamedTable) (NxInput.str "src/**".toList) [] =
      (["src/**".toList], []) :=
    resolveGo_literal _ _ _ (by simp) rfl (fun _ => rfl)
  have r2 : resolveGo ([] : NamedTable) (NxInput.str "!src/generated/**".toList) [] =
      (["!src/generated/**".toList], []) :=
    resolveGo_literal _ _ _ (by simp) rfl (fun _ => rfl)
  have e1 : expandInputs ([] : NamedTable)
      [NxInput.str "src/**".toList, NxInput.str "!src/generated/**".toList] =
      (["src/**".toList], ["src/generated/**".toList]) := by
    simp only [expandInputs, List.foldl_cons, List.foldl_nil, resolveNamedInput, r1, r2]
    decide
  have e2 : expandInputs ([] : NamedTable) [NxInput.str "!src/generated/**".toList] =
      ([], ["src/generated/**".toList]) := by
    simp only [expandInputs, List.foldl_cons, List.foldl_nil, resolveNamedInput, r2]
    decide
  refine ⟨?_, ?_, ?_, ?_⟩
  · intro t ws f inputs root
    rw [matchesPatterns_eq]
    simp [List.any_eq_true, Bool.not_eq_true', List.any_eq_false]
  · rw [matchesPatterns_eq, e1]
    decide
  · rw [matchesPatterns_eq, e1]
    decide
  · rw [matchesPatterns_eq, e2]
    decide

-- ==========================================================================
-- Claim C9
-- ==========================================================================

theorem c9TaskConfig_eval :
    getTaskConfig c9Oracle "p9".toList "build".toList = [c9CfgBuild, c9CfgPrep] := by
  show (collectConfigs c9Oracle "p9".toList "build".toList []).1 = _
  rw [collectConfigs_success c9Oracle "p9".toList "build".toList [] c9CfgBuild
    (by decide) rfl]
  have hd : c9CfgBuild.target.dependsOn.getD ([] : List DepRef) =
      [DepRef.str "prep".toList, DepRef.str "missing".toList] := rfl
  rw [hd]
  rw [collectDeps_cons_go _ _ _ _ _ "prep".toList
    (show depTargetOf "p9".toList (DepRef.str "prep".toList) = some "prep".toList from rfl)
    rfl]
  rw [collectConfigs_success c9Oracle "p9".toList "prep".toList _ c9CfgPrep
    (by decide) rfl]
  have hd2 : c9CfgPrep.target.dependsOn.getD ([] : List DepRef) = [] := rfl
  rw [hd2, collectDeps_nil]
  rw [collectDeps_cons_go _ _ _ _ _ "missing".toList
    (show depTargetOf "p9".toList (DepRef.str "missing".toList) = some "missing".toList
      from rfl)
    rfl]
  rw [collectConfigs_fail c9Oracle "p9".toList "missing".toList _ (by decide) rfl]
  rw [collectDeps_nil]
  rfl

/-- Claim C9 as stated is false in its logging half: the scenario's
`missing` dependency target fails its spec query and is skipped — the
remaining tasks are still collected in full — but no log entry is
produced anywhere in the collection loop (the catch block is explicitly
silent). -/
theorem c9_counterexample_no_log_emitted :
    collectConfigsLog c9Oracle "p9".toList "build".toList = [] ∧
    getTaskConfig c9Oracle "p9".toList "build".toList = [c9CfgBuild, c9CfgPrep] :=
  ⟨rfl, c9TaskConfig_eval⟩

/-- Claim C9 amended: a referenced dependency whose TaskSpec is missing
or malformed is skipped silently — its patterns contribute nothing — and
collection of the remaining tasks completes rather than aborting; no log
output is emitted by the collection loop for any oracle. -/
theorem c9_missing_dep_skipped_silently :
    getTaskConfig c9Oracle "p9".toList "build".toList = [c9CfgBuild, c9CfgPrep] ∧
    (∀ (oracle : NxOracle) (project target : Str),
      collectConfigsLog oracle project target = []) :=
  ⟨c9TaskConfig_eval, fun _ _ _ => rfl⟩

-- ==========================================================================
-- Claim C8
-- ==========================================================================

/-- Closed form of the resolver under an empty named-input table: every
string input is a literal pattern (or already visited), every object
input is dropped. -/
theorem resolveGo_empty_table (input : NxInput) (visited : List Str) :
    resolveGo [] input visited =
      (match input with
       | NxInput.obj => ([], [])
       | NxInput.str s => if s ∈ visited then ([], []) else ([s], [])) := by
  match input with
  | NxInput.obj => rw [resolveGo_obj]
  | NxInput.str s =>
    by_cases hv : s ∈ visited
    · rw [resolveGo_visited _ _ _ hv]
      simp [hv]
    · rw [resolveGo_literal ([] : NamedTable) s visited hv rfl (fun _ => rfl)]
      simp [hv]

/-- Claim C8 as stated is false: running the scenario with the natural
root of a workspace-level project (`"."`) makes the project-relevance
filter drop both `dist` writes — they are neither under `./` nor
root-level file names — so `undeclaredWrites` comes out empty instead of
`["dist/extra.txt"]` (while `undeclaredReads` still matches the claim). -/
theorem c8_counterexample_relevance_filter :
    (runReport (c8Env ".".toList) c8Reads c8Writes "build".toList 0).undeclaredReads =
      ["undeclared-input.txt".toList] ∧
    (runReport (c8Env ".".toList) c8Reads c8Writes "build".toList 0).undeclaredWrites =
      ([] : List Str) ∧
    ([] : List Str) ≠ ["dist/extra.txt".toList] := by
  refine ⟨?_, ?_, by decide⟩ <;>
  · simp only [runReport, findMatchingInputTask, findMatchingOutputTask,
      matchesPatterns, expandInputs, resolveNamedInput, c8Env, c8Cfg, c8Target,
      resolveGo_empty_table]
    decide

/-- Claim C8 amended: with the scenario placed inside the task's project
root `p` (inputs `p/data/input.txt`, outputs `p/dist/output.txt`,
observed reads `p/data/input.txt` and `p/undeclared-input.txt`, observed
writes `p/dist/output.txt` and `p/dist/extra.txt`, none of them
directories or bookkeeping files, resolved-input lookup unavailable),
classification reports exactly the undeclared read
`p/undeclared-input.txt` and the undeclared write `p/dist/extra.txt`. -/
theorem c8_end_to_end_classification :
    runReport c8pEnv c8pReads c8pWrites "build".toList 0 =
      { tasks := ["p:build".toList],
        undeclaredReads := ["p/undeclared-input.txt".toList],
        undeclaredWrites := ["p/dist/extra.txt".toList],
        crossProjectReads := [],
        exitCode := 0 } := by
  simp only [runReport, findMatchingInputTask, findMatchingOutputTask,
    matchesPatterns, expandInputs, resolveNamedInput, c8pEnv, c8pCfg,
    resolveGo_empty_table]
  decide

-- ==========================================================================
-- Claim C7
-- ==========================================================================

theorem containsSub_head (pat : Str) (p0 : Char) (hh : pat.head? = some p0) :
    ∀ s : Str, p0 ∉ s → containsSub pat s = false := by
  intro s
  induction s with
  | nil =>
    intro _
    cases pat with
    | nil => cases hh
    | cons a as => rfl
  | cons x xs ih =>
    intro hmem
    cases pat with
    | nil => cases hh
    | cons a as =>
      have ha : a = p0 := by injection hh
      subst ha
      have hx : (a == x) = false := by
        rw [beq_eq_false_iff_ne]
        intro he
        exact hmem (by rw [← he]; exact List.mem_cons_self _ _)
      have hrest := ih (fun hm => hmem (List.mem_cons_of_mem _ hm))
      show (strStartsWith (x :: xs) (a :: as) || containsSub (a :: as) xs) = false
      rw [show strStartsWith (x :: xs) (a :: as) =
          ((a == x) && strStartsWith xs as) from rfl,
        hx, Bool.false_and, Bool.false_or, hrest]

theorem replaceAllAux_drop (pat repl : Str) :
    ∀ (a s : Str), replaceAllAux pat repl a.length (a ++ s) =
      replaceAllAux pat repl 0 s := by
  intro a
  induction a with
  | nil => intro s; rfl
  | cons c a2 ih =>
    intro s
    show replaceAllAux pat repl (a2.length + 1) (c :: (a2 ++ s)) = _
    rw [show replaceAllAux pat repl (a2.length + 1) (c :: (a2 ++ s)) =
      replaceAllAux pat repl a2.length (a2 ++ s) from rfl]
    exact ih s

theorem replaceAllAux_hit (pat repl s : Str) (hne : pat ≠ []) :
    replaceAllAux pat repl 0 (pat ++ s) = repl ++ replaceAllAux pat repl 0 s := by
  cases pat with
  | nil => exact absurd rfl hne
  | cons p0 pt =>
    show replaceAllAux (p0 :: pt) repl 0 (p0 :: (pt ++ s)) = _
    rw [replaceAllAux]
    rw [if_pos ⟨List.cons_ne_nil _ _,
      by rw [← List.cons_append]; exact strStartsWith_append _ _⟩]
    rw [List.length_cons, Nat.add_sub_cancel]
    exact congrArg (repl ++ ·) (replaceAllAux_drop (p0 :: pt) repl pt s)

theorem replaceAllAux_skip (pat repl : Str) (p0 : Char) (hh : pat.head? = some p0) :
    ∀ (a s : Str), p0 ∉ a →
      replaceAllAux pat repl 0 (a ++ s) = a ++ replaceAllAux pat repl 0 s := by
  intro a
  induction a with
  | nil => intro s _; rfl
  | cons c a2 ih =>
    intro s hmem
    cases pat with
    | nil => cases hh
    | cons q qt =>
      have hq : q = p0 := by injection hh
      subst hq
      have hcond : ¬((q :: qt) ≠ [] ∧
          strStartsWith (c :: (a2 ++ s)) (q :: qt) = true) := by
        intro hcon
        have hsw := hcon.2
        rw [show strStartsWith (c :: (a2 ++ s)) (q :: qt) =
            ((q == c) && strStartsWith (a2 ++ s) qt) from rfl] at hsw
        have hqc : (q == c) = false := by
          rw [beq_eq_false_iff_ne]
          intro he
          exact hmem (by rw [← he]; exact List.mem_cons_self _ _)
        rw [hqc, Bool.false_and] at hsw
        exact Bool.false_ne_true hsw
      rw [show (c :: a2) ++ s = c :: (a2 ++ s) from rfl]
      rw [replaceAllAux]
      rw [if_neg hcond]
      rw [ih s (fun hm => hmem (List.mem_cons_of_mem _ hm))]
      rfl

theorem replaceAll_spine (pat repl a b : Str) (p0 : Char)
    (hh : pat.head? = some p0) (ha : p0 ∉ a) (hb : containsSub pat b = false) :
    replaceAll pat repl (a ++ pat ++ b) = a ++ repl ++ b := by
  have hne : pat ≠ [] := by
    cases pat with
    | nil => cases hh
    | cons x xs => exact List.cons_ne_nil _ _
  unfold replaceAll
  rw [List.append_assoc, replaceAllAux_skip pat repl p0 hh a (pat ++ b) ha,
    replaceAllAux_hit pat repl b hne, replaceAllAux_no_occur pat repl b hb,
    ← List.append_assoc]

theorem escapeRegex_append (a b : Str) :
    escapeRegex (a ++ b) = escapeRegex a ++ escapeRegex b := by
  induction a with
  | nil => rfl
  | cons c a2 ih =>
    simp only [List.cons_append, escapeRegex, ih]
    cases regexMetaChar c <;> simp [ih]

theorem mem_escapeRegex (s : Str) :
    ∀ c ∈ escapeRegex s, c = '\\' ∨ c ∈ s := by
  induction s with
  | nil => intro c hc; exact absurd hc (List.not_mem_nil _)
  | cons x xs ih =>
    intro c hc
    by_cases hm : regexMetaChar x = true
    · rw [show escapeRegex (x :: xs) = '\\' :: x :: escapeRegex xs from by
        rw [escapeRegex, if_pos hm]] at hc
      rcases List.mem_cons.mp hc with h | h
      · exact Or.inl h
      · rcases List.mem_cons.mp h with h2 | h2
        · exact Or.inr (by rw [h2]; exact List.mem_cons_self _ _)
        · rcases ih c h2 with h3 | h3
          · exact Or.inl h3
          · exact Or.inr (List.mem_cons_of_mem _ h3)
    · rw [show escapeRegex (x :: xs) = x :: escapeRegex xs from by
        rw [escapeRegex, if_neg hm]] at hc
      rcases List.mem_cons.mp hc with h | h
      · exact Or.inr (by rw [h]; exact List.mem_cons_self _ _)
      · rcases ih c h with h3 | h3
        · exact Or.inl h3
        · exact Or.inr (List.mem_cons_of_mem _ h3)

theorem scanRegexGo_succ_cons (f : Nat) (c : Char) (rest : Str) :
    scanRegexGo (f + 1) (c :: rest) =
      (if c = '\\' then
        match rest with
        | c2 :: rest2 => Tok.lit c2 :: scanRegexGo f rest2
        | [] => [Tok.lit '\\']
      else if c = '(' then
        if strStartsWith rest "?:.*/)?[^/]+".toList then
          Tok.anypath :: scanRegexGo f (rest.drop 12)
        else Tok.lit '(' :: scanRegexGo f rest
      else if c = '[' then
        if strStartsWith rest "^/]*".toList then
          Tok.star :: scanRegexGo f (rest.drop 4)
        else Tok.lit '[' :: scanRegexGo f rest
      else if c = '.' then
        if strStartsWith rest ['*'] then
          Tok.globstar :: scanRegexGo f (rest.drop 1)
        else Tok.single :: scanRegexGo f rest
      else Tok.lit c :: scanRegexGo f rest) := rfl

theorem scanRegexGo_fuel : ∀ (f1 : Nat) (s : Str) (f2 : Nat),
    s.length ≤ f1 → s.length ≤ f2 → scanRegexGo f1 s = scanRegexGo f2 s := by
  intro f1
  induction f1 with
  | zero =>
    intro s f2 hl1 _
    have hs : s = [] := List.eq_nil_of_length_eq_zero (Nat.le_zero.mp hl1)
    subst hs
    cases f2 with
    | zero => rfl
    | succ n => rfl
  | succ f ih =>
    intro s f2 hl1 hl2
    cases s with
    | nil =>
      cases f2 with
      | zero => rfl
      | succ n => rfl
    | cons c rest =>
      cases f2 with
      | zero => exact absurd hl2 (by simp)
      | succ g =>
        have hlr : rest.length ≤ f := by
          simp only [List.length_cons] at hl1
          omega
        have hlg : rest.length ≤ g := by
          simp only [List.length_cons] at hl2
          omega
        rw [scanRegexGo_succ_cons, scanRegexGo_succ_cons]
        by_cases hbs : c = '\\'
        · rw [if_pos hbs, if_pos hbs]
          cases rest with
          | nil => rfl
          | cons c2 rest2 =>
            have h2f : rest2.length ≤ f := by
              simp only [List.length_cons] at hlr
              omega
            have h2g : rest2.length ≤ g := by
              simp only [List.length_cons] at hlg
              omega
            show Tok.lit c2 :: scanRegexGo f rest2 = Tok.lit c2 :: scanRegexGo g rest2
            exact congrArg (Tok.lit c2 :: ·) (ih rest2 g h2f h2g)
        · rw [if_neg hbs, if_neg hbs]
          by_cases hp : c = '('
          · rw [if_pos hp, if_pos hp]
            by_cases hfr : strStartsWith rest "?:.*/)?[^/]+".toList = true
            · rw [if_pos hfr, if_pos hfr]
              refine congrArg (Tok.anypath :: ·) (ih (rest.drop 12) g ?_ ?_)
              · rw [List.length_drop]
                omega
              · rw [List.length_drop]
                omega
            · rw [if_neg hfr, if_neg hfr]
              exact congrArg (Tok.lit '(' :: ·) (ih rest g hlr hlg)
          · rw [if_neg hp, if_neg hp]
            by_cases hbr : c = '['
            · rw [if_pos hbr, if_pos hbr]
              by_cases hfr : strStartsWith rest "^/]*".toList = true
              · rw [if_pos hfr, if_pos hfr]
                refine congrArg (Tok.star :: ·) (ih (rest.drop 4) g ?_ ?_)
                · rw [List.length_drop]
                  omega
                · rw [List.length_drop]
                  omega
              · rw [if_neg hfr, if_neg hfr]
                exact congrArg (Tok.lit '[' :: ·) (ih rest g hlr hlg)
            · rw [if_neg hbr, if_neg hbr]
              by_cases hdot : c = '.'
              · rw [if_pos hdot, if_pos hdot]
                by_cases hfr : strStartsWith rest ['*'] = true
                · rw [if_pos hfr, if_pos hfr]
                  refine congrArg (Tok.globstar :: ·) (ih (rest.drop 1) g ?_ ?_)
                  · rw [List.length_drop]
                    omega
                  · rw [List.length_drop]
                    omega
                · rw [if_neg hfr, if_neg hfr]
                  exact congrArg (Tok.single :: ·) (ih rest g hlr hlg)
              · rw [if_neg hdot, if_neg hdot]
                exact congrArg (Tok.lit c :: ·) (ih rest g hlr hlg)

theorem scanRegexGo_cons_bs (f : Nat) (c : Char) (rest : Str) :
    scanRegexGo (f + 1) ('\\' :: c :: rest) = Tok.lit c :: scanRegexGo f rest :=
  rfl

theorem scanRegexGo_cons_safe (f : Nat) (c : Char) (rest : Str)
    (h1 : ¬(c = '\\')) (h2 : ¬(c = '(')) (h3 : ¬(c = '['))
    (h4 : ¬(c = '.')) :
    scanRegexGo (f + 1) (c :: rest) = Tok.lit c :: scanRegexGo f rest := by
  rw [scanRegexGo_succ_cons, if_neg h1, if_neg h2, if_neg h3, if_neg h4]

theorem scanRegex_cons_bs (c : Char) (rest : Str) :
    scanRegex ('\\' :: c :: rest) = Tok.lit c :: scanRegex rest := by
  show scanRegexGo (('\\' :: c :: rest).length) ('\\' :: c :: rest) = _
  rw [show ('\\' :: c :: rest).length = rest.length + 1 + 1 from by simp]
  rw [scanRegexGo_cons_bs]
  exact congrArg (Tok.lit c :: ·)
    (scanRegexGo_fuel (rest.length + 1) rest rest.length (by omega) (by omega))

theorem scanRegex_cons_safe (c : Char) (rest : Str) (h1 : ¬(c = '\\'))
    (h2 : ¬(c = '(')) (h3 : ¬(c = '[')) (h4 : ¬(c = '.')) :
    scanRegex (c :: rest) = Tok.lit c :: scanRegex rest := by
  show scanRegexGo ((c :: rest).length) (c :: rest) = _
  rw [show (c :: rest).length = rest.length + 1 from by simp]
  exact scanRegexGo_cons_safe rest.length c rest h1 h2 h3 h4

theorem scanRegex_escape : ∀ (r s : Str),
    scanRegex (escapeRegex r ++ s) = r.map Tok.lit ++ scanRegex s := by
  intro r
  induction r with
  | nil => intro s; rfl
  | cons c r2 ih =>
    intro s
    by_cases hm : regexMetaChar c = true
    · rw [show escapeRegex (c :: r2) = '\\' :: c :: escapeRegex r2 from by
        rw [escapeRegex, if_pos hm]]
      rw [List.cons_append, List.cons_append]
      rw [scanRegex_cons_bs c (escapeRegex r2 ++ s)]
      rw [ih s]
      rfl
    · have h1 : ¬(c = '\\') := fun he => by subst he; exact hm (by decide)
      have h2 : ¬(c = '(') := fun he => by subst he; exact hm (by decide)
      have h3 : ¬(c = '[') := fun he => by subst he; exact hm (by decide)
      have h4 : ¬(c = '.') := fun he => by subst he; exact hm (by decide)
      rw [show escapeRegex (c :: r2) = c :: escapeRegex r2 from by
        rw [escapeRegex, if_neg hm]]
      rw [List.cons_append]
      rw [scanRegex_cons_safe c (escapeRegex r2 ++ s) h1 h2 h3 h4]
      rw [ih s]
      rfl

theorem globToRegex_root_wild (r : Str) (h1 : '*' ∉ r) (h2 : '?' ∉ r)
    (h3 : '<' ∉ r) :
    globToRegex (r ++ "/**/*.ts".toList) =
      r.map Tok.lit ++
        [Tok.lit '/', Tok.anypath, Tok.lit '.', Tok.lit 't', Tok.lit 's'] := by
  have nm : ∀ (c : Char) (a b : Str), c ∉ a → c ∉ b → c ∉ a ++ b := by
    intro c a b ha hb hmem
    rcases List.mem_append.mp hmem with h | h
    · exact ha h
    · exact hb h
  have hEr : ∀ (c : Char), c ∉ r → ¬(c = '\\') → c ∉ escapeRegex r := by
    intro c hc hbs hmem
    rcases mem_escapeRegex r c hmem with h | h
    · exact hbs h
    · exact hc h
  have e1 : replaceAll ['?'] markSingle (r ++ "/**/*.ts".toList) =
      r ++ "/**/*.ts".toList :=
    replaceAll_no_occur _ _ _ (containsSub_head ['?'] '?' rfl _
      (nm '?' r "/**/*.ts".toList h2 (by decide)))
  have hsplit : r ++ "/**/*.ts".toList =
      (r ++ ['/']) ++ "**/*".toList ++ ".ts".toList := by
    rw [List.append_assoc, List.append_assoc]
    rfl
  have e2 : replaceAll "**/*".toList markAnypath (r ++ "/**/*.ts".toList) =
      (r ++ ['/']) ++ markAnypath ++ ".ts".toList := by
    rw [hsplit]
    exact replaceAll_spine "**/*".toList markAnypath (r ++ ['/']) ".ts".toList '*'
      rfl (nm '*' r ['/'] h1 (by decide)) (by decide)
  have e3 : replaceAll "**".toList markGlobstar
      ((r ++ ['/']) ++ markAnypath ++ ".ts".toList) =
      (r ++ ['/']) ++ markAnypath ++ ".ts".toList :=
    replaceAll_no_occur _ _ _ (containsSub_head "**".toList '*' rfl _
      (nm '*' ((r ++ ['/']) ++ markAnypath) ".ts".toList
        (nm '*' (r ++ ['/']) markAnypath (nm '*' r ['/'] h1 (by decide))
          (by decide))
        (by decide)))
  have e4 : escapeRegex ((r ++ ['/']) ++ markAnypath ++ ".ts".toList) =
      (escapeRegex r ++ ['/']) ++ markAnypath ++ "\\.ts".toList := by
    rw [escapeRegex_append, escapeRegex_append, escapeRegex_append]
    rw [show escapeRegex ['/'] = ['/'] from rfl,
      show escapeRegex markAnypath = markAnypath from rfl,
      show escapeRegex ".ts".toList = "\\.ts".toList from rfl]
  have hstarE : '*' ∉ (escapeRegex r ++ ['/']) ++ markAnypath ++ "\\.ts".toList :=
    nm '*' ((escapeRegex r ++ ['/']) ++ markAnypath) "\\.ts".toList
      (nm '*' (escapeRegex r ++ ['/']) markAnypath
        (nm '*' (escapeRegex r) ['/'] (hEr '*' h1 (by decide)) (by decide))
        (by decide))
      (by decide)
  have e5 : replaceAll ['*'] "[^/]*".toList
      ((escapeRegex r ++ ['/']) ++ markAnypath ++ "\\.ts".toList) =
      (escapeRegex r ++ ['/']) ++ markAnypath ++ "\\.ts".toList :=
    replaceAll_no_occur _ _ _ (containsSub_head ['*'] '*' rfl _ hstarE)
  have e6 : replaceAll markAnypath "(?:.*/)?[^/]+".toList
      ((escapeRegex r ++ ['/']) ++ markAnypath ++ "\\.ts".toList) =
      (escapeRegex r ++ ['/']) ++ "(?:.*/)?[^/]+".toList ++ "\\.ts".toList :=
    replaceAll_spine markAnypath "(?:.*/)?[^/]+".toList (escapeRegex r ++ ['/'])
      "\\.ts".toList '<' rfl
      (nm '<' (escapeRegex r) ['/'] (hEr '<' h3 (by decide)) (by decide))
      (by decide)
  have hfin : '<' ∉
      (escapeRegex r ++ ['/']) ++ "(?:.*/)?[^/]+".toList ++ "\\.ts".toList :=
    nm '<' ((escapeRegex r ++ ['/']) ++ "(?:.*/)?[^/]+".toList) "\\.ts".toList
      (nm '<' (escapeRegex r ++ ['/']) "(?:.*/)?[^/]+".toList
        (nm '<' (escapeRegex r) ['/'] (hEr '<' h3 (by decide)) (by decide))
        (by decide))
      (by decide)
  have e7 : replaceAll markGlobstar ".*".toList
      ((escapeRegex r ++ ['/']) ++ "(?:.*/)?[^/]+".toList ++ "\\.ts".toList) =
      (escapeRegex r ++ ['/']) ++ "(?:.*/)?[^/]+".toList ++ "\\.ts".toList :=
    replaceAll_no_occur _ _ _ (containsSub_head markGlobstar '<' rfl _ hfin)
  have e8 : replaceAll markSingle ['.']
      ((escapeRegex r ++ ['/']) ++ "(?:.*/)?[^/]+".toList ++ "\\.ts".toList) =
      (escapeRegex r ++ ['/']) ++ "(?:.*/)?[^/]+".toList ++ "\\.ts".toList :=
    replaceAll_no_occur _ _ _ (containsSub_head markSingle '<' rfl _ hfin)
  have esrc : globRegexSource (r ++ "/**/*.ts".toList) =
      (escapeRegex r ++ ['/']) ++ "(?:.*/)?[^/]+".toList ++ "\\.ts".toList := by
    simp only [globRegexSource]
    rw [e1, e2, e3, e4, e5, e6, e7, e8]
  unfold globToRegex
  rw [esrc]
  rw [show (escapeRegex r ++ ['/']) ++ "(?:.*/)?[^/]+".toList ++ "\\.ts".toList =
      escapeRegex r ++ "/(?:.*/)?[^/]+\\.ts".toList from by
    rw [List.append_assoc, List.append_assoc]
    rfl]
  rw [scanRegex_escape r "/(?:.*/)?[^/]+\\.ts".toList]
  rw [show scanRegex "/(?:.*/)?[^/]+\\.ts".toList =
      [Tok.lit '/', Tok.anypath, Tok.lit '.', Tok.lit 't', Tok.lit 's'] from by
    decide]

theorem regexRun_nil_states (s : Str) : regexRun [] s = false := by
  induction s with
  | nil => rfl
  | cons c rest ih =>
    show regexRun (rstep [] c) rest = false
    simpa [rstep] using ih

theorem regexRun_lit_cons (c : Char) (ts : List RTok) (d : Char) (s : Str) :
    regexRun [RTok.lit c :: ts] (d :: s) =
      if d = c then regexRun [ts] s else false := by
  show regexRun (rstep [RTok.lit c :: ts] d) s = _
  by_cases hd : d = c
  · simp [rstep, rderiv, hd]
  · simp [rstep, rderiv, hd, regexRun_nil_states]

theorem regexRun_lits (r : Str) (ts : List RTok) (s : Str) :
    regexRun [r.map RTok.lit ++ ts] s = true ↔
      ∃ s2, s = r ++ s2 ∧ regexRun [ts] s2 = true := by
  induction r generalizing s with
  | nil => simp
  | cons c cs ih =>
    cases s with
    | nil =>
      show ([RTok.lit c :: (cs.map RTok.lit ++ ts)].any rnullable) = true ↔ _
      simp [rnullable]
    | cons d s2 =>
      rw [show (c :: cs).map RTok.lit ++ ts = RTok.lit c :: (cs.map RTok.lit ++ ts)
        from rfl, regexRun_lit_cons]
      by_cases hd : d = c
      · rw [if_pos hd, ih]
        constructor
        · rintro ⟨s3, rfl, h⟩
          exact ⟨s3, by rw [hd, List.cons_append], h⟩
        · rintro ⟨s3, heq, h⟩
          injection heq with he1 he2
          exact ⟨s3, he2, h⟩
      · rw [if_neg hd]
        constructor
        · intro hcon
          cases hcon
        · rintro ⟨s3, heq, h⟩
          injection heq with he1 he2
          exact absurd he1 hd

theorem regexTest_lits_append (r : Str) (C : List Tok) (s : Str) :
    regexTest (r.map Tok.lit ++ C) s = true ↔
      ∃ s2, s = r ++ s2 ∧ regexTest C s2 = true := by
  unfold regexTest
  rw [List.map_append, List.map_map,
    show r.map (Tok.toR ∘ Tok.lit) = r.map RTok.lit from rfl]
  exact regexRun_lits r (C.map Tok.toR) s

/-- Claim C7 as stated is false of the program: the hypotheses of the
claim admit roots that contain the implementation's marker strings
literally, and the restore passes of `globToRegex` rewrite those
occurrences into wildcard fragments.  For the root `<<<GLOBSTAR>>>`
(which contains neither `*` nor `?`), the compiled regex for
`{root}/**/*.ts` is `^.*` followed by `/(?:.*/)?[^/]+\.ts$`, which
matches `/q/a.ts` — a path that neither equals the root nor lies below
it. -/
theorem c7_counterexample_marker_collision :
    regexTest (globToRegex ("<<<GLOBSTAR>>>".toList ++ "/**/*.ts".toList))
      "/q/a.ts".toList = true ∧
    strStartsWith "/q/a.ts".toList ("<<<GLOBSTAR>>>".toList ++ ['/']) = false ∧
    ("/q/a.ts".toList == "<<<GLOBSTAR>>>".toList) = false :=
  ⟨by decide, by decide, by decide⟩

/-- Claim C7 amended: for every root `r` free of wildcards and of the
`<` character (so that no marker collision can occur), the matcher
compiled from `r ++ "/**/*.ts"` accepts both `r/src/a.ts` and `r/a.ts`,
and accepts only paths strictly below `r/`; and for every wildcard-free,
token-free absolute pattern, `matchesSinglePattern` accepts a path
exactly when it equals the pattern or extends it across a separator. -/
theorem c7_glob_and_literal_semantics :
    (∀ (r p : Str), '*' ∉ r → '?' ∉ r → '<' ∉ r →
      regexTest (globToRegex (r ++ "/**/*.ts".toList)) (r ++ "/src/a.ts".toList) = true ∧
      regexTest (globToRegex (r ++ "/**/*.ts".toList)) (r ++ "/a.ts".toList) = true ∧
      (regexTest (globToRegex (r ++ "/**/*.ts".toList)) p = true →
        strStartsWith p (r ++ ['/']) = true)) ∧
    (∀ (ws path pat root : Str),
      containsSub ['*'] pat = false → containsSub ['?'] pat = false →
      containsSub "{projectRoot}".toList pat = false →
      containsSub "{workspaceRoot}".toList pat = false →
      strStartsWith pat ['/'] = true →
      matchesSinglePattern ws path pat root =
        (path == pat || strStartsWith path (pat ++ ['/']))) := by
  constructor
  · intro r p h1 h2 h3
    rw [globToRegex_root_wild r h1 h2 h3]
    refine ⟨?_, ?_, ?_⟩
    · exact (regexTest_lits_append r _ _).mpr ⟨"/src/a.ts".toList, rfl, by decide⟩
    · exact (regexTest_lits_append r _ _).mpr ⟨"/a.ts".toList, rfl, by decide⟩
    · intro h
      obtain ⟨s2, rfl, h3⟩ := (regexTest_lits_append r _ _).mp h
      rw [show ([Tok.lit '/', Tok.anypath, Tok.lit '.', Tok.lit 't', Tok.lit 's']
          : List Tok) =
        ['/'].map Tok.lit ++ [Tok.anypath, Tok.lit '.', Tok.lit 't', Tok.lit 's']
        from rfl] at h3
      obtain ⟨s3, rfl, -⟩ := (regexTest_lits_append ['/'] _ _).mp h3
      apply (strStartsWith_iff _ _).mpr
      rw [← List.append_assoc]
      exact List.prefix_append _ _
  · intro ws path pat root hstar hq hpr hwr hslash
    have he : expandNxPath pat root ws = pat := by
      unfold expandNxPath
      rw [replaceAll_no_occur _ _ _ hpr, replaceAll_no_occur _ _ _ hwr]
    simp only [matchesSinglePattern, he]
    rw [if_pos hslash, if_neg (by simp [hstar, hq])]

/-- Witness for C7 at the concrete root `x` and a concrete literal
pattern. -/
theorem c7_glob_and_literal_semantics_witness :
    regexTest (globToRegex ("x".toList ++ "/**/*.ts".toList))
      ("x".toList ++ "/src/a.ts".toList) = true ∧
    strStartsWith ("x".toList ++ "/a.ts".toList) ("x".toList ++ ['/']) = true ∧
    matchesSinglePattern "/w".toList "/w/d/x".toList "/w/d".toList "p".toList =
      (("/w/d/x".toList == "/w/d".toList) ||
        strStartsWith "/w/d/x".toList ("/w/d".toList ++ ['/'])) :=
  ⟨(c7_glob_and_literal_semantics.1 "x".toList ("x".toList ++ "/src/a.ts".toList)
      (by decide) (by decide) (by decide)).1,
   (c7_glob_and_literal_semantics.1 "x".toList ("x".toList ++ "/a.ts".toList)
      (by decide) (by decide) (by decide)).2.2
     ((c7_glob_and_literal_semantics.1 "x".toList ("x".toList ++ "/a.ts".toList)
      (by decide) (by decide) (by decide)).2.1),
   c7_glob_and_literal_semantics.2 "/w".toList "/w/d/x".toList "/w/d".toList "p".toList
     (by decide) (by decide) (by decide) (by decide) (by decide)⟩

-- ==========================================================================
-- C4: token-level semantics of the strace flag classification
-- ==========================================================================

theorem prefix_drop_pipe :
    ∀ (t n r : Str), '|' ∉ n → n <+: t ++ '|' :: r → n <+: t := by
  intro t
  induction t with
  | nil =>
    intro n r hbar h
    cases n with
    | nil => exact List.nil_prefix
    | cons a as =>
      exfalso
      rw [List.nil_append] at h
      rcases (List.cons_prefix_cons).mp h with ⟨h1, -⟩
      subst h1
      exact hbar (List.mem_cons_self _ _)
  | cons c cs ih =>
    intro n r hbar h
    cases n with
    | nil => exact List.nil_prefix
    | cons a as =>
      rw [List.cons_append] at h
      rcases (List.cons_prefix_cons).mp h with ⟨h1, h2⟩
      refine (List.cons_prefix_cons).mpr ⟨h1, ?_⟩
      exact ih as r (fun hm => hbar (List.mem_cons_of_mem _ hm)) h2

theorem infix_split_pipe :
    ∀ (t n r : Str), '|' ∉ n → n <:+: t ++ '|' :: r → n <:+: t ∨ n <:+: r := by
  intro t
  induction t with
  | nil =>
    intro n r hbar h
    rw [List.nil_append] at h
    rcases (List.infix_cons_iff).mp h with hpre | htail
    · cases n with
      | nil => exact Or.inl (List.infix_refl _)
      | cons a as =>
        exfalso
        rcases (List.cons_prefix_cons).mp hpre with ⟨h1, -⟩
        subst h1
        exact hbar (List.mem_cons_self _ _)
    · exact Or.inr htail
  | cons c cs ih =>
    intro n r hbar h
    rw [List.cons_append] at h
    rcases (List.infix_cons_iff).mp h with hpre | htail
    · exact Or.inl (prefix_drop_pipe (c :: cs) n r hbar
        (by rw [List.cons_append]; exact hpre)).isInfix
    · rcases ih n r hbar htail with h1 | h2
      · exact Or.inl (List.infix_cons h1)
      · exact Or.inr h2

theorem infix_joinPipe_of_mem :
    ∀ (toks : List Str) (t : Str), t ∈ toks → t <:+: joinPipe toks := by
  intro toks
  induction toks with
  | nil => intro t h; exact absurd h (List.not_mem_nil _)
  | cons u rest ih =>
    intro t h
    cases rest with
    | nil =>
      rcases List.mem_cons.mp h with h1 | h1
      · rw [h1]; exact List.infix_refl _
      · exact absurd h1 (List.not_mem_nil _)
    | cons v vs =>
      rcases List.mem_cons.mp h with h1 | h1
      · rw [h1]
        show u <:+: u ++ '|' :: joinPipe (v :: vs)
        exact (List.prefix_append _ _).isInfix
      · have h2 := ih t h1
        show t <:+: u ++ '|' :: joinPipe (v :: vs)
        exact h2.trans
          (((List.suffix_cons '|' _).trans (List.suffix_append u _)).isInfix)

theorem infix_joinPipe_elim :
    ∀ (toks : List Str) (needle : Str), needle ≠ [] → '|' ∉ needle →
      needle <:+: joinPipe toks → ∃ t ∈ toks, needle <:+: t := by
  intro toks
  induction toks with
  | nil =>
    intro needle hne _ h
    exact absurd ((List.infix_nil).mp h) hne
  | cons u rest ih =>
    intro needle hne hbar h
    cases rest with
    | nil => exact ⟨u, List.mem_cons_self _ _, h⟩
    | cons v vs =>
      have h2 : needle <:+: u ++ '|' :: joinPipe (v :: vs) := h
      rcases infix_split_pipe u needle (joinPipe (v :: vs)) hbar h2 with h3 | h3
      · exact ⟨u, List.mem_cons_self _ _, h3⟩
      · rcases ih needle hne hbar h3 with ⟨t, ht, hin⟩
        exact ⟨t, List.mem_cons_of_mem _ ht, hin⟩

theorem containsSub_joinPipe (needle : Str) (toks : List Str)
    (hne : needle ≠ []) (hbar : '|' ∉ needle)
    (htoks : ∀ t ∈ toks, (containsSub needle t = true ↔ t = needle)) :
    (containsSub needle (joinPipe toks) = true ↔ needle ∈ toks) := by
  constructor
  · intro h
    rcases infix_joinPipe_elim toks needle hne hbar
      ((containsSub_iff _ _).mp h) with ⟨t, ht, hin⟩
    have heq := (htoks t ht).mp ((containsSub_iff _ _).mpr hin)
    rw [← heq]
    exact ht
  · intro h
    exact (containsSub_iff _ _).mpr (infix_joinPipe_of_mem toks needle h)

theorem containsSub_joinPipe_decide (needle : Str) (toks : List Str)
    (hne : needle ≠ []) (hbar : '|' ∉ needle)
    (htoks : ∀ t ∈ toks, (containsSub needle t = true ↔ t = needle)) :
    containsSub needle (joinPipe toks) = decide (needle ∈ toks) := by
  by_cases hmem : needle ∈ toks
  · rw [(containsSub_joinPipe needle toks hne hbar htoks).mpr hmem,
      decide_eq_true hmem]
  · have h1 : containsSub needle (joinPipe toks) ≠ true := fun hc =>
      hmem ((containsSub_joinPipe needle toks hne hbar htoks).mp hc)
    rw [Bool.eq_false_iff.mpr h1, decide_eq_false hmem]

theorem straceNeedleFact (needle : Str)
    (hmem : needle ∈ ["O_WRONLY".toList, "O_RDWR".toList, "O_CREAT".toList,
      "O_TRUNC".toList, "O_RDONLY".toList]) :
    needle ≠ [] ∧ '|' ∉ needle ∧
      ∀ t ∈ straceFlagNames, (containsSub needle t = true ↔ t = needle) := by
  simp only [List.mem_cons, List.not_mem_nil, or_false] at hmem
  rcases hmem with h | h | h | h | h <;> subst h <;>
    exact ⟨by decide, by decide, by decide⟩

theorem straceFlagChars :
    ∀ t ∈ straceFlagNames, t ≠ [] ∧ ∀ c ∈ t,
      (c == '"') = false ∧ (c == ')') = false ∧
        isSpaceJS c = false ∧ c ≠ '\n' := by
  decide

theorem mem_joinPipe_chars :
    ∀ (toks : List Str) (c : Char), c ∈ joinPipe toks →
      c = '|' ∨ ∃ t ∈ toks, c ∈ t := by
  intro toks
  induction toks with
  | nil => intro c h; exact absurd h (List.not_mem_nil _)
  | cons u rest ih =>
    intro c h
    cases rest with
    | nil => exact Or.inr ⟨u, List.mem_cons_self _ _, h⟩
    | cons v vs =>
      have h2 : c ∈ u ++ '|' :: joinPipe (v :: vs) := h
      rcases List.mem_append.mp h2 with h3 | h3
      · exact Or.inr ⟨u, List.mem_cons_self _ _, h3⟩
      · rcases List.mem_cons.mp h3 with h4 | h4
        · exact Or.inl h4
        · rcases ih c h4 with h5 | ⟨t, ht, hc2⟩
          · exact Or.inl h5
          · exact Or.inr ⟨t, List.mem_cons_of_mem _ ht, hc2⟩

theorem joinPipe_ne_nil :
    ∀ (toks : List Str), toks ≠ [] → (∀ t ∈ toks, t ≠ []) →
      joinPipe toks ≠ [] := by
  intro toks
  cases toks with
  | nil => intro h _; exact absurd rfl h
  | cons u rest =>
    intro _ hall
    cases rest with
    | nil => exact hall u (List.mem_cons_self _ _)
    | cons v vs =>
      show u ++ '|' :: joinPipe (v :: vs) ≠ []
      intro hc
      exact List.cons_ne_nil _ _ (List.append_eq_nil.mp hc).2

theorem isDigit_not_space (c : Char) (h : c.isDigit = true) :
    isSpaceJS c = false := by
  cases hsp : isSpaceJS c
  · rfl
  · exfalso
    have hmem : c ∈ jsWhitespace := by
      unfold isSpaceJS at hsp
      exact List.elem_iff.mp hsp
    simp only [jsWhitespace, List.mem_cons, List.not_mem_nil, or_false] at hmem
    rcases hmem with h1|h1|h1|h1|h1|h1|h1|h1|h1|h1|h1|h1|h1|h1|h1|h1|h1|h1|h1|h1|h1|h1|h1|h1|h1 <;>
      (subst h1; exact absurd h (by decide))

theorem isDigit_ne_nl (c : Char) (h : c.isDigit = true) : c ≠ '\n' := by
  intro hc
  subst hc
  exact absurd h (by decide)

theorem splitLines_no_nl : ∀ (s : Str), '\n' ∉ s → splitLines s = [s] := by
  intro s
  induction s with
  | nil => intro _; rfl
  | cons c cs ih =>
    intro h
    have hc : c ≠ '\n' := fun hcc => h (by rw [hcc]; exact List.mem_cons_self _ _)
    have h2 : '\n' ∉ cs := fun hm => h (List.mem_cons_of_mem _ hm)
    unfold splitLines
    split
    · rename_i heq
      exact absurd heq (List.cons_ne_nil _ _)
    · rename_i rest heq
      injection heq with ha hb
      exact absurd ha hc
    · rename_i s0 c2 rest hno heq
      injection heq with ha hb
      rw [← ha, ← hb, ih h2]

theorem parseStraceOutput_single (root line : Str) (h : '\n' ∉ line) :
    parseStraceOutput root line =
      (sortStrs (parseStraceLine root ([], []) line).1,
       sortStrs (parseStraceLine root ([], []) line).2) := by
  unfold parseStraceOutput
  rw [splitLines_no_nl line h]
  rfl

theorem mem_ite_singleton (x : Str) (b : Bool) :
    (x ∈ (if b then [x] else ([] : List Str)) ↔ b = true) := by
  cases b <;> simp

theorem parseOpenatAfter_eval (path flags : Str) (d : Char) (fdr : Str)
    (hpne : path ≠ []) (hpq : ∀ c ∈ path, (c == '"') = false)
    (hfne : flags ≠ [])
    (hfc : ∀ c ∈ flags, (c == ')') = false ∧ isSpaceJS c = false)
    (hd : d.isDigit = true) :
    parseOpenatAfter
      (' ' :: '"' :: (path ++ '"' :: ',' :: ' ' ::
        (flags ++ ')' :: ' ' :: '=' :: ' ' :: d :: fdr))) = some (path, flags) := by
  have h1 : ∀ x : Str, (' ' :: '"' :: x).dropWhile isSpaceJS = '"' :: x := by
    intro x
    rw [List.dropWhile_cons, if_pos (by decide), List.dropWhile_cons,
      if_neg (by decide)]
  have hpq2 : ∀ x ∈ path, (!(x == '"')) = true := by
    intro x hx
    rw [hpq x hx]
    rfl
  have h23 := takeWhile_all_append (fun c => !(c == '"')) path '"'
    (',' :: ' ' :: (flags ++ ')' :: ' ' :: '=' :: ' ' :: d :: fdr)) hpq2 (by decide)
  have hpE : path.isEmpty = false := by
    cases path with
    | nil => exact absurd rfl hpne
    | cons a as => rfl
  have hfc2 : ∀ x ∈ ' ' :: flags, (!(x == ')')) = true := by
    intro x hx
    rcases List.mem_cons.mp hx with h | h
    · rw [h]
      rfl
    · rw [(hfc x h).1]
      rfl
  have h45 := takeWhile_all_append (fun c => !(c == ')')) (' ' :: flags) ')'
    (' ' :: '=' :: ' ' :: d :: fdr) hfc2 (by decide)
  have h4 : (' ' :: (flags ++ ')' :: ' ' :: '=' :: ' ' :: d :: fdr)).takeWhile
      (fun c => !(c == ')')) = ' ' :: flags := by
    rw [← List.cons_append]
    exact h45.1
  have h5 : (' ' :: (flags ++ ')' :: ' ' :: '=' :: ' ' :: d :: fdr)).dropWhile
      (fun c => !(c == ')')) = ')' :: ' ' :: '=' :: ' ' :: d :: fdr := by
    rw [← List.cons_append]
    exact h45.2
  have h6 : (' ' :: flags).dropWhile isSpaceJS = flags := by
    rw [List.dropWhile_cons, if_pos (by decide)]
    cases flags with
    | nil => exact absurd rfl hfne
    | cons f0 fs =>
      rw [List.dropWhile_cons,
        if_neg (by rw [(hfc f0 (List.mem_cons_self _ _)).2]
                   exact Bool.false_ne_true)]
  have hfE : flags.isEmpty = false := by
    cases flags with
    | nil => exact absurd rfl hfne
    | cons a as => rfl
  have h8 : ∀ x : Str, (' ' :: '=' :: x).dropWhile isSpaceJS = '=' :: x := by
    intro x
    rw [List.dropWhile_cons, if_pos (by decide), List.dropWhile_cons,
      if_neg (by decide)]
  have h9 : (' ' :: d :: fdr).dropWhile isSpaceJS = d :: fdr := by
    rw [List.dropWhile_cons, if_pos (by decide), List.dropWhile_cons,
      if_neg (by rw [isDigit_not_space d hd]; exact Bool.false_ne_true)]
  simp only [parseOpenatAfter, h1, h23.1, h23.2, hpE, h4, h5, h6, hfE,
    List.isEmpty_cons, h8, h9, hd, Bool.false_eq_true, if_false, if_true]

theorem findOpenat_pre (rest : Str) (pfl : Str × Str)
    (hp : parseOpenatAfter rest = some pfl) :
    findOpenat (straceOpenatPre ++ rest) = some pfl := by
  have h0 : straceOpenatPre ++ rest =
      'o' :: ("penat(AT_FDCWD,".toList ++ rest) := rfl
  have hcond : strStartsWith ('o' :: ("penat(AT_FDCWD,".toList ++ rest))
      straceOpenatPre = true := by
    rw [← h0]
    exact strStartsWith_append _ _
  have hdrop : ('o' :: ("penat(AT_FDCWD,".toList ++ rest)).drop
      straceOpenatPre.length = rest := by
    rw [← h0]
    exact List.drop_left _ _
  rw [h0]
  unfold findOpenat
  rw [if_pos hcond, hdrop, hp]

theorem findOpenat_mkOpenatLine (path flags : Str) (d : Char) (fdr : Str)
    (hpne : path ≠ []) (hpq : ∀ c ∈ path, (c == '"') = false)
    (hfne : flags ≠ [])
    (hfc : ∀ c ∈ flags, (c == ')') = false ∧ isSpaceJS c = false)
    (hd : d.isDigit = true) :
    findOpenat (mkOpenatLine path flags (d :: fdr)) = some (path, flags) := by
  have hline : mkOpenatLine path flags (d :: fdr) =
      straceOpenatPre ++ (' ' :: '"' :: (path ++ '"' :: ',' :: ' ' ::
        (flags ++ ')' :: ' ' :: '=' :: ' ' :: d :: fdr))) := by
    simp only [mkOpenatLine, List.append_assoc, List.cons_append, List.nil_append]
  rw [hline]
  exact findOpenat_pre _ _ (parseOpenatAfter_eval path flags d fdr hpne hpq hfne hfc hd)

theorem parseStraceLine_eval (root path flags : Str) (d : Char) (fdr : Str)
    (hpne : path ≠ []) (hpq : ∀ c ∈ path, (c == '"') = false)
    (hfne : flags ≠ [])
    (hfc : ∀ c ∈ flags, (c == ')') = false ∧ isSpaceJS c = false)
    (hd : d.isDigit = true)
    (hrel : isRelevantPath root path = true)
    (hrelE : (nodeRelative root path).isEmpty = false)
    (hdots : strStartsWith (nodeRelative root path) "..".toList = false) :
    parseStraceLine root ([], []) (mkOpenatLine path flags (d :: fdr)) =
      ((if containsSub "O_RDONLY".toList flags || containsSub "O_RDWR".toList flags ||
          !containsSub "O_WRONLY".toList flags then [nodeRelative root path] else []),
       (if containsSub "O_WRONLY".toList flags || containsSub "O_RDWR".toList flags ||
          containsSub "O_CREAT".toList flags || containsSub "O_TRUNC".toList flags then
          [nodeRelative root path] else [])) := by
  unfold parseStraceLine
  rw [findOpenat_mkOpenatLine path flags d fdr hpne hpq hfne hfc hd]
  simp only [hrel, Bool.not_true, Bool.false_eq_true, if_false, hrelE, hdots,
    Bool.or_self, Bool.or_false, insertUniq, List.not_mem_nil, if_false,
    List.nil_append]

/-- **C4.** For a syscall-trace line `openat(AT_FDCWD, "<path>", <flags>) = <fd>`
whose flag field is a nonempty pipe-joined list of standard `O_*` tokens and
whose path survives the workspace and ignore filters, the workspace-relative
path lands in the writes set iff the tokens include `O_WRONLY`, `O_RDWR`,
`O_CREAT` or `O_TRUNC`, and in the reads set iff the tokens include `O_RDONLY`
or `O_RDWR` or omit `O_WRONLY` entirely; a single `O_RDWR` line places the same
path in both sets, so the two sets are not mutually exclusive. -/
theorem c4_flag_token_classification (root path : Str) (toks : List Str)
    (d : Char) (fdr : Str)
    (htoks : ∀ t ∈ toks, t ∈ straceFlagNames)
    (htne : toks ≠ [])
    (hpne : path ≠ [])
    (hpq : ∀ c ∈ path, (c == '"') = false ∧ c ≠ '\n')
    (hd : d.isDigit = true)
    (hfdr : ∀ c ∈ fdr, c.isDigit = true)
    (hrel : isRelevantPath root path = true)
    (hrelE : (nodeRelative root path).isEmpty = false)
    (hdots : strStartsWith (nodeRelative root path) "..".toList = false) :
    (nodeRelative root path ∈
        (parseStraceOutput root (mkOpenatLine path (joinPipe toks) (d :: fdr))).2 ↔
      ("O_WRONLY".toList ∈ toks ∨ "O_RDWR".toList ∈ toks ∨
        "O_CREAT".toList ∈ toks ∨ "O_TRUNC".toList ∈ toks)) ∧
    (nodeRelative root path ∈
        (parseStraceOutput root (mkOpenatLine path (joinPipe toks) (d :: fdr))).1 ↔
      ("O_RDONLY".toList ∈ toks ∨ "O_RDWR".toList ∈ toks ∨
        "O_WRONLY".toList ∉ toks)) ∧
    parseStraceOutput "/w".toList
        (mkOpenatLine "/w/b.txt".toList "O_RDWR".toList "3".toList) =
      (["b.txt".toList], ["b.txt".toList]) := by
  have htne2 : ∀ t ∈ toks, t ≠ [] := fun t ht => (straceFlagChars t (htoks t ht)).1
  have hfne : joinPipe toks ≠ [] := joinPipe_ne_nil toks htne htne2
  have hfc : ∀ c ∈ joinPipe toks, (c == ')') = false ∧ isSpaceJS c = false := by
    intro c hc
    rcases mem_joinPipe_chars toks c hc with h1 | ⟨t, ht, hct⟩
    · subst h1
      exact ⟨by decide, by decide⟩
    · have h2 := (straceFlagChars t (htoks t ht)).2 c hct
      exact ⟨h2.2.1, h2.2.2.1⟩
  have hline : mkOpenatLine path (joinPipe toks) (d :: fdr) =
      straceOpenatPre ++ (' ' :: '"' :: (path ++ '"' :: ',' :: ' ' ::
        (joinPipe toks ++ ')' :: ' ' :: '=' :: ' ' :: d :: fdr))) := by
    simp only [mkOpenatLine, List.append_assoc, List.cons_append, List.nil_append]
  have hnl : '\n' ∉ mkOpenatLine path (joinPipe toks) (d :: fdr) := by
    intro hmem
    rw [hline] at hmem
    rcases List.mem_append.mp hmem with h | h
    · exact absurd h (by decide)
    · rcases List.mem_cons.mp h with h1 | h
      · exact absurd h1 (by decide)
      · rcases List.mem_cons.mp h with h1 | h
        · exact absurd h1 (by decide)
        · rcases List.mem_append.mp h with h | h
          · exact (hpq '\n' h).2 rfl
          · rcases List.mem_cons.mp h with h1 | h
            · exact absurd h1 (by decide)
            · rcases List.mem_cons.mp h with h1 | h
              · exact absurd h1 (by decide)
              · rcases List.mem_cons.mp h with h1 | h
                · exact absurd h1 (by decide)
                · rcases List.mem_append.mp h with h | h
                  · rcases mem_joinPipe_chars toks '\n' h with h1 | ⟨t, ht, hct⟩
                    · exact absurd h1 (by decide)
                    · exact ((straceFlagChars t (htoks t ht)).2 '\n' hct).2.2.2 rfl
                  · rcases List.mem_cons.mp h with h1 | h
                    · exact absurd h1 (by decide)
                    · rcases List.mem_cons.mp h with h1 | h
                      · exact absurd h1 (by decide)
                      · rcases List.mem_cons.mp h with h1 | h
                        · exact absurd h1 (by decide)
                        · rcases List.mem_cons.mp h with h1 | h
                          · exact absurd h1 (by decide)
                          · rcases List.mem_cons.mp h with h1 | h
                            · exact isDigit_ne_nl d hd h1.symm
                            · exact isDigit_ne_nl '\n' (hfdr '\n' h) rfl
  have hpq1 : ∀ c ∈ path, (c == '"') = false := fun c hc => (hpq c hc).1
  have hsingle := parseStraceOutput_single root _ hnl
  have hstep := parseStraceLine_eval root path (joinPipe toks) d fdr hpne hpq1
    hfne hfc hd hrel hrelE hdots
  have hW := straceNeedleFact "O_WRONLY".toList (by decide)
  have hR := straceNeedleFact "O_RDWR".toList (by decide)
  have hC := straceNeedleFact "O_CREAT".toList (by decide)
  have hT := straceNeedleFact "O_TRUNC".toList (by decide)
  have hO := straceNeedleFact "O_RDONLY".toList (by decide)
  have hw1 : containsSub "O_WRONLY".toList (joinPipe toks) =
      decide ("O_WRONLY".toList ∈ toks) :=
    containsSub_joinPipe_decide _ _ hW.1 hW.2.1 (fun t ht => hW.2.2 t (htoks t ht))
  have hw2 : containsSub "O_RDWR".toList (joinPipe toks) =
      decide ("O_RDWR".toList ∈ toks) :=
    containsSub_joinPipe_decide _ _ hR.1 hR.2.1 (fun t ht => hR.2.2 t (htoks t ht))
  have hw3 : containsSub "O_CREAT".toList (joinPipe toks) =
      decide ("O_CREAT".toList ∈ toks) :=
    containsSub_joinPipe_decide _ _ hC.1 hC.2.1 (fun t ht => hC.2.2 t (htoks t ht))
  have hw4 : containsSub "O_TRUNC".toList (joinPipe toks) =
      decide ("O_TRUNC".toList ∈ toks) :=
    containsSub_joinPipe_decide _ _ hT.1 hT.2.1 (fun t ht => hT.2.2 t (htoks t ht))
  have hw5 : containsSub "O_RDONLY".toList (joinPipe toks) =
      decide ("O_RDONLY".toList ∈ toks) :=
    containsSub_joinPipe_decide _ _ hO.1 hO.2.1 (fun t ht => hO.2.2 t (htoks t ht))
  refine ⟨?_, ?_, ?_⟩
  · simp only [hsingle, hstep]
    rw [mem_sortStrs, hw1, hw2, hw3, hw4, mem_ite_singleton]
    simp only [Bool.or_eq_true, decide_eq_true_eq]
    rw [or_assoc, or_assoc]
  · simp only [hsingle, hstep]
    rw [mem_sortStrs, hw5, hw2, hw1, mem_ite_singleton]
    simp only [Bool.or_eq_true, Bool.not_eq_true', decide_eq_true_eq,
      decide_eq_false_iff_not]
    rw [or_assoc]
  · decide

/-- Witness for C4: an `O_RDWR|O_CLOEXEC` open of `/w/b.txt` under workspace
root `/w` records `b.txt` in both the writes set and the reads set. -/
theorem c4_flag_token_classification_witness :
    "b.txt".toList ∈
      (parseStraceOutput "/w".toList
        (mkOpenatLine "/w/b.txt".toList
          (joinPipe ["O_RDWR".toList, "O_CLOEXEC".toList]) ('3' :: []))).2 ∧
    "b.txt".toList ∈
      (parseStraceOutput "/w".toList
        (mkOpenatLine "/w/b.txt".toList
          (joinPipe ["O_RDWR".toList, "O_CLOEXEC".toList]) ('3' :: []))).1 := by
  have h := c4_flag_token_classification "/w".toList "/w/b.txt".toList
    ["O_RDWR".toList, "O_CLOEXEC".toList] '3' []
    (by decide) (by decide) (by decide) (by decide) (by decide) (by decide)
    (by decide) (by decide) (by decide)
  have hrel2 : nodeRelative "/w".toList "/w/b.txt".toList = "b.txt".toList := by
    decide
  rw [← hrel2]
  exact ⟨h.1.mpr (Or.inr (Or.inl (by decide))),
         h.2.1.mpr (Or.inr (Or.inl (by decide)))⟩
